import Mathlib

/-!
# Verification of the phobos pass-graph and submission-batch core

This file gives a shallow embedding of the phobos GPU synchronization library
(pass graph with barrier synthesis and merging, submission batching, scratch
allocator, deferred deletion queue) and proves or refutes the specified
properties about it.

Machine integers (`u32`, `u64`, `vk::DeviceSize`, bitmask flag types) are
modelled as `Nat`; every arithmetic operation performed by the code stays far
below the corresponding word size in the scenarios considered, and where a
wrap/underflow could matter this is noted at the definition.  Fallible Rust
functions returning `Result` are modelled with `Except`; a Rust panic
(`unwrap`/`expect`/`panic!` on a violated expectation) is modelled by a
distinguished error value `GErr.Panicked`, which is *not* an error the Rust
caller could observe as a `Result` - it aborts the computation.

The task-graph core (`task_graph.rs`), the virtual-resource type
(`virtual_resource.rs`) and the `Pass` description struct (`pass.rs`) are not
part of the sources; the definitions for them below are modelled from the
specification text and are marked `Modelled from the spec:` in their doc
comments.  Everything else is translated directly from the Rust sources
(`graph/pass_graph.rs`, `graph/resource.rs`, `sync/submit_batch.rs`,
`allocator/scratch_allocator.rs`, `buffer.rs`, `util/deferred_delete.rs`).
-/

set_option autoImplicit false

/-- Vulkan pipeline-stage bitmask (`vk::PipelineStageFlags2`), as a `Nat`. -/
abbrev PipelineStage := Nat

/-- Vulkan access bitmask (`vk::AccessFlags2`), as a `Nat`. -/
abbrev AccessFlags := Nat

/-- Vulkan image layout (`vk::ImageLayout`), as a `Nat` (0 = `UNDEFINED`). -/
abbrev ImageLayout := Nat

/-- `vk::PipelineStageFlags2::NONE` -/
def STAGE_NONE : PipelineStage := 0

/-- `vk::PipelineStageFlags2::TOP_OF_PIPE` -/
def TOP_OF_PIPE : PipelineStage := 0x1

/-- `vk::PipelineStageFlags2::COLOR_ATTACHMENT_OUTPUT` -/
def COLOR_ATTACHMENT_OUTPUT : PipelineStage := 0x400

/-- `vk::PipelineStageFlags2::BOTTOM_OF_PIPE` -/
def BOTTOM_OF_PIPE : PipelineStage := 0x2000

/-- `vk::ImageLayout::UNDEFINED` -/
def LAYOUT_UNDEFINED : ImageLayout := 0

/--
Modelled from the spec: `VirtualResource` (§3, `virtual_resource.rs` is not in
the sources).  Identity = (`name`: string, `version`: unsigned counter).
-/
structure VirtualResource where
  name : String
  version : Nat
deriving DecidableEq, Repr

/--
Modelled from the spec: `uid()` = a value unique per (name, version) pair,
used as the graph-matching key.  We take the pair itself, which is trivially
unique per (name, version).
-/
def VirtualResource.uid (r : VirtualResource) : String × Nat :=
  (r.name, r.version)

/--
Modelled from the spec: a resource "is a source resource" if it is the first
reference to its name (version 0).
-/
def VirtualResource.is_source (r : VirtualResource) : Bool :=
  r.version = 0

/--
Modelled from the spec: association test = same name, any version (§4.1).
-/
def VirtualResource.is_associated_with (r other : VirtualResource) : Bool :=
  r.name = other.name

/--
Modelled from the spec: construct a named resource at version 0
(`VirtualResource::image`, used by `set_source_stages` for its internal
default).
-/
def VirtualResource.image (name : String) : VirtualResource :=
  ⟨name, 0⟩

/-- `AttachmentType` from `graph/resource.rs`. -/
inductive AttachmentType where
  | Color
  | Depth
  | Resolve (target : VirtualResource)
deriving DecidableEq, Repr

/-- `ResourceUsage` from `graph/resource.rs`. -/
inductive ResourceUsage where
  | Nothing
  | Present
  | Attachment (t : AttachmentType)
  | ShaderRead
  | ShaderWrite
  | TransferRead
  | TransferWrite
  | IndirectCommandRead
deriving DecidableEq, Repr

/--
`ResourceUsage::access` from `graph/resource.rs`: the `vk::AccessFlags2`
value for this usage (bit values as in Vulkan / ash).
-/
def ResourceUsage.access : ResourceUsage → AccessFlags
  | .Nothing => 0
  | .Present => 0
  | .Attachment .Color => 0x100
  | .Attachment .Depth => 0x400
  | .Attachment (.Resolve _) => 0x100
  | .ShaderRead => 0x20
  | .ShaderWrite => 0x40
  | .TransferRead => 0x800
  | .TransferWrite => 0x1000
  | .IndirectCommandRead => 0x1

/-- `ResourceUsage::is_read` from `graph/resource.rs`. -/
def ResourceUsage.is_read : ResourceUsage → Bool
  | .Nothing => true
  | .Present => false
  | .Attachment _ => false
  | .ShaderRead => true
  | .ShaderWrite => false
  | .TransferRead => true
  | .TransferWrite => false
  | .IndirectCommandRead => true

/--
`PassResource` from `graph/pass_graph.rs`.  The `clear_value` (a
`vk::ClearValue`) and `load_op` (a `vk::AttachmentLoadOp`) payloads are
opaque to every algorithm in scope and are modelled as `Option Nat`.
-/
structure PassResource where
  usage : ResourceUsage
  resource : VirtualResource
  stage : PipelineStage
  layout : ImageLayout
  clear_value : Option Nat
  load_op : Option Nat
deriving DecidableEq, Repr

/-- `Resource::uid` for `PassResource` (delegates to the virtual resource). -/
def PassResource.uid (r : PassResource) : String × Nat :=
  r.resource.uid

/--
`Resource::is_dependency_of` for `PassResource` from `graph/pass_graph.rs`:
uid equality.
-/
def PassResource.is_dependency_of (self lhs : PassResource) : Bool :=
  self.uid = lhs.uid

/--
`PassNode` from `graph/pass_graph.rs`.  The `execute` recording callback is
an opaque capability never inspected by the graph algorithms and is omitted;
the `color` debug payload (`Option<[f32; 4]>`) is modelled as `Option Unit`.
-/
structure PassNode where
  identifier : String
  color : Option Unit
  inputs : List PassResource
  outputs : List PassResource
  is_renderpass : Bool
deriving DecidableEq, Repr

/-- `PassResourceBarrier` from `graph/pass_graph.rs`. -/
structure PassResourceBarrier where
  resource : PassResource
  src_access : AccessFlags
  dst_access : AccessFlags
  src_stage : PipelineStage
  dst_stage : PipelineStage
deriving DecidableEq, Repr

/--
`Barrier::new` for `PassResourceBarrier` from `graph/pass_graph.rs`:
src access/stage from the guarded (producer) resource, dst access/stage
left at `NONE` pending merge.
-/
def PassResourceBarrier.fresh (resource : PassResource) : PassResourceBarrier :=
  ⟨resource, resource.usage.access, 0, resource.stage, STAGE_NONE⟩

/--
`Node` from the task-graph core: a task or a barrier.  The source's third
`_Unreachable` variant is a defect guard that is never constructed (§9 of the
spec), so the model uses the two live variants.
-/
inductive GNode where
  | Task (t : PassNode)
  | Barrier (b : PassResourceBarrier)
deriving DecidableEq, Repr

/--
Error kinds of the crate-level `Error` enum that are relevant here (§7),
plus `Panicked`, which models a Rust panic (`unwrap`, `expect`, `panic!`):
a panic aborts the computation and is never observable as a `Result::Err`.
-/
inductive GErr where
  | CyclicDependency
  | IllegalTaskGraph
  | MismatchedWaitCounts
  | NodeNotFound
  | Panicked
deriving DecidableEq, Repr

/-! ## Submission batch (`sync/submit_batch.rs`)

Semaphores and command buffers are external device objects; the graph of
wait/signal edges only ever compares and copies them, so they are modelled
by `Nat` identifiers.  Fresh semaphores created with `Semaphore::new` are
drawn from a counter carried in the batch (`Semaphore::new` can only fail on
device loss, outside this model).  The `&mut self` methods are modelled in
state-passing style `SubmitBatch → ... → Except GErr (SubmitBatch × _)`: an
`Except.error` result leaves the caller's batch value untouched, matching a
Rust early `return Err(..)` taken before any mutation of `self`.
-/

/-- A semaphore handle (`Arc<Semaphore>`), by identifier. -/
abbrev Semaphore := Nat

/-- `SubmitInfo` from `sync/submit_batch.rs`. -/
structure SubmitInfo where
  cmd : Nat
  signal_semaphore : Option Semaphore
  wait_semaphores : List Semaphore
  wait_stages : List PipelineStage
deriving DecidableEq, Repr

/-- `SubmitHandle` from `sync/submit_batch.rs`: a stable index into the
batch's entry list. -/
structure SubmitHandle where
  index : Nat
deriving DecidableEq, Repr

/-- `SubmitBatch` from `sync/submit_batch.rs`.  `next_semaphore` models the
supply of fresh semaphores; device, execution manager and the signal fence
are external handles with no bearing on the wiring logic. -/
structure SubmitBatch where
  submits : List SubmitInfo
  next_semaphore : Nat
deriving DecidableEq, Repr

/-- `InFlightContext` as consumed by `submit_for_present_after`: the frame's
acquire (wait) and present (signal) semaphores, absent outside a frame. -/
structure InFlightContext where
  wait_semaphore : Option Semaphore
  signal_semaphore : Option Semaphore
deriving DecidableEq, Repr

/-- `SubmitBatch::new`: no submits yet. -/
def SubmitBatch.fresh : SubmitBatch :=
  ⟨[], 0⟩

/-- `SubmitBatch::get_submit_semaphore` from `sync/submit_batch.rs`:
`self.submits.get(submit.index).and_then(|s| s.signal_semaphore.clone())`. -/
def SubmitBatch.get_submit_semaphore (b : SubmitBatch) (submit : SubmitHandle) : Option Semaphore :=
  (b.submits.get? submit.index).bind (fun s => s.signal_semaphore)

/-- The `handles.iter().map(|h| self.get_submit_semaphore(*h).unwrap())`
loop shared by `submit_after` and `submit_for_present_after`: a missing
semaphore (handle not referring to an entry of this batch) panics. -/
def SubmitBatch.collect_wait_semaphores (b : SubmitBatch) :
    List SubmitHandle → Except GErr (List Semaphore)
  | [] => .ok []
  | h :: rest =>
    match b.get_submit_semaphore h with
    | none => .error .Panicked
    | some s =>
      match b.collect_wait_semaphores rest with
      | .error e => .error e
      | .ok l => .ok (s :: l)

/-- `SubmitBatch::submit_after` from `sync/submit_batch.rs` (lines 54-70).
Note: this function performs *no* length check between `handles` and
`wait_stages`; it unwraps each handle's signal semaphore (panicking on an
unknown handle) and appends the entry. -/
def SubmitBatch.submit_after (b : SubmitBatch) (handles : List SubmitHandle)
    (cmd : Nat) (wait_stages : List PipelineStage) :
    Except GErr (SubmitBatch × SubmitHandle) :=
  match b.collect_wait_semaphores handles with
  | .error e => .error e
  | .ok wait_semaphores =>
    let b' : SubmitBatch :=
      ⟨b.submits ++ [⟨cmd, some b.next_semaphore, wait_semaphores, wait_stages⟩],
        b.next_semaphore + 1⟩
    .ok (b', ⟨b'.submits.length - 1⟩)

/-- `SubmitBatch::submit` from `sync/submit_batch.rs`: append an entry with
a fresh signal semaphore and no waits. -/
def SubmitBatch.submit (b : SubmitBatch) (cmd : Nat) : SubmitBatch × SubmitHandle :=
  let b' : SubmitBatch :=
    ⟨b.submits ++ [⟨cmd, some b.next_semaphore, [], []⟩], b.next_semaphore + 1⟩
  (b', ⟨b'.submits.length - 1⟩)

/-- Helper for `submit_for_present_after`: wiring of the frame's wait
semaphore into the first entry, per lines 96-105 of `sync/submit_batch.rs`. -/
def SubmitBatch.wire_frame_wait (b : SubmitBatch) (frame_wait : Semaphore)
    (wait_semaphores : List Semaphore) (wait_stages : List PipelineStage) :
    SubmitBatch × List Semaphore × List PipelineStage :=
  match b.submits with
  | [] => (b, wait_semaphores ++ [frame_wait], wait_stages ++ [COLOR_ATTACHMENT_OUTPUT])
  | first :: rest =>
    (⟨⟨first.cmd, first.signal_semaphore,
        first.wait_semaphores ++ [frame_wait],
        first.wait_stages ++ [TOP_OF_PIPE]⟩ :: rest, b.next_semaphore⟩,
      wait_semaphores, wait_stages)

/-- `SubmitBatch::submit_for_present_after` from `sync/submit_batch.rs`
(lines 78-121).  The `ensure!` length check comes first, before any
mutation; the handle unwraps come next, before the frame-context `expect`s. -/
def SubmitBatch.submit_for_present_after (b : SubmitBatch) (cmd : Nat)
    (ifc : InFlightContext) (submits : List SubmitHandle)
    (wait_stages : List PipelineStage) :
    Except GErr (SubmitBatch × SubmitHandle) :=
  if submits.length = wait_stages.length then
    match b.collect_wait_semaphores submits with
    | .error e => .error e
    | .ok wait_semaphores =>
      match ifc.wait_semaphore with
      | none => .error .Panicked
      | some frame_wait =>
        match ifc.signal_semaphore with
        | none => .error .Panicked
        | some frame_signal =>
          let (b, wait_semaphores, wait_stages) :=
            b.wire_frame_wait frame_wait wait_semaphores wait_stages
          let b' : SubmitBatch :=
            ⟨b.submits ++ [⟨cmd, some frame_signal, wait_semaphores, wait_stages⟩],
              b.next_semaphore⟩
          .ok (b', ⟨b'.submits.length - 1⟩)
  else
    .error .MismatchedWaitCounts

/-- `SubmitHandle::then` from `sync/submit_batch.rs` (lines 231-236):
`batch.submit_after(&[self], cmd, &[wait_stage])`. -/
def SubmitHandle.then (h : SubmitHandle) (wait_stage : PipelineStage)
    (cmd : Nat) (batch : SubmitBatch) : Except GErr (SubmitBatch × SubmitHandle) :=
  batch.submit_after [h] cmd [wait_stage]

/-! ## Scratch allocator (`allocator/scratch_allocator.rs`, `buffer.rs`) -/

/-- Allocation-related variants of the crate `Error` enum. -/
inductive AllocErr where
  | OutOfMemoryErr
  | BufferViewOutOfRange
  | UnmappableBuffer
deriving DecidableEq, Repr

/-- `BufferView` from `buffer.rs` (identity and mapped pointer omitted). -/
structure BufferView where
  offset : Nat
  size : Nat
deriving DecidableEq, Repr

/-- `Buffer::view` from `buffer.rs` (lines 76-87): fails with
`BufferViewOutOfRange` when `offset + size >= self.size` (note `>=`). -/
def bufferView (buffer_size offset size : Nat) : Except AllocErr BufferView :=
  if offset + size ≥ buffer_size then
    .error .BufferViewOutOfRange
  else
    .ok ⟨offset, size⟩

/-- `ScratchAllocator` from `allocator/scratch_allocator.rs`: the backing
buffer is reduced to its size (`vk::DeviceSize`, modelled as `Nat`). -/
structure ScratchAllocator where
  buffer_size : Nat
  offset : Nat
  alignment : Nat
deriving DecidableEq, Repr

/-- `ScratchAllocator::allocate` from `allocator/scratch_allocator.rs`
(lines 130-144).  `size % alignment` panics in Rust when `alignment = 0`
(never produced by the constructors, which default the alignment to 256);
the theorems below therefore assume `0 < alignment`. -/
def ScratchAllocator.allocate (sa : ScratchAllocator) (size : Nat) :
    Except AllocErr (ScratchAllocator × BufferView) :=
  let unaligned_part := size % sa.alignment
  let padding := sa.alignment - unaligned_part
  let padded_size := size + padding
  if sa.offset + padded_size > sa.buffer_size then
    .error .OutOfMemoryErr
  else
    match bufferView sa.buffer_size sa.offset size with
    | .error e => .error e
    | .ok v => .ok (⟨sa.buffer_size, sa.offset + padded_size, sa.alignment⟩, v)

/-- `ScratchAllocator::reset` from `allocator/scratch_allocator.rs`. -/
def ScratchAllocator.reset (sa : ScratchAllocator) : ScratchAllocator :=
  ⟨sa.buffer_size, 0, sa.alignment⟩

/-! ## Deferred deletion queue (`util/deferred_delete.rs`)

Stored values are identified by `Nat` tags.  The `ttl` counter is a Rust
`u32`; `next_frame` decrements it with `-= 1`, which underflows (a panic in
debug builds) if an item ever has `ttl = 0` when `next_frame` runs.  With
`max_ttl ≥ 1` every held item always has `ttl ≥ 1` at the start of
`next_frame` (items reaching 0 are removed in the same call that zeroed
them), so `Nat` subtraction coincides with `u32` subtraction throughout the
theorems below, which assume `1 ≤ max_ttl`.
-/

/-- `DeletionQueue` from `util/deferred_delete.rs`: each item is a
(value tag, time-to-live) pair. -/
structure DeletionQueue where
  max_ttl : Nat
  items : List (Nat × Nat)
deriving DecidableEq, Repr

/-- `DeletionQueue::new`. -/
def DeletionQueue.fresh (max_ttl : Nat) : DeletionQueue :=
  ⟨max_ttl, []⟩

/-- `DeletionQueue::push`: the item enters with `ttl = max_ttl`. -/
def DeletionQueue.push (q : DeletionQueue) (tag : Nat) : DeletionQueue :=
  ⟨q.max_ttl, q.items ++ [(tag, q.max_ttl)]⟩

/-- The body of `DeletionQueue::next_frame` on the item list: decrement
every ttl by one, then drop the items whose ttl reached zero. -/
def nextFrameItems (items : List (Nat × Nat)) : List (Nat × Nat) :=
  (items.map (fun it => (it.1, it.2 - 1))).filter (fun it => it.2 ≠ 0)

/-- `DeletionQueue::next_frame` from `util/deferred_delete.rs` (lines
30-42). -/
def DeletionQueue.next_frame (q : DeletionQueue) : DeletionQueue :=
  ⟨q.max_ttl, nextFrameItems q.items⟩

/-! ## Theorems: scratch allocator (C9) -/

/--
**C9.** For every `ScratchAllocator` with alignment `a > 0`,
`allocate(size)` consumes `size + (a - size % a)` bytes of capacity (a full
extra alignment block even when `size` is already a multiple of `a`); hence
`allocate(C)` on a fresh allocator of capacity `C` always fails with the
out-of-memory allocation error, and `allocate(size)` succeeds if and only if
`offset + size + (a - size % a) <= C`.
-/
theorem c9_scratch_allocate_padding (sa : ScratchAllocator) (size : Nat)
    (ha : 0 < sa.alignment) :
    ((sa.allocate size).isOk = true ↔
      sa.offset + size + (sa.alignment - size % sa.alignment) ≤ sa.buffer_size) ∧
    (∀ sa' v, sa.allocate size = .ok (sa', v) →
      sa'.offset = sa.offset + size + (sa.alignment - size % sa.alignment)) ∧
    (sa.offset = 0 → size = sa.buffer_size →
      sa.allocate size = .error .OutOfMemoryErr) := by
  have hlt : size % sa.alignment < sa.alignment := Nat.mod_lt _ ha
  refine ⟨?_, ?_, ?_⟩
  · unfold ScratchAllocator.allocate bufferView
    by_cases h : sa.offset + (size + (sa.alignment - size % sa.alignment)) > sa.buffer_size
    · simp only [h, if_true]
      constructor
      · intro hc; simp [Except.isOk, Except.toBool] at hc
      · intro hle; omega
    · have hview : ¬ (sa.offset + size ≥ sa.buffer_size) := by omega
      simp only [h, if_false, hview, ge_iff_le, if_neg]
      constructor
      · intro _; omega
      · intro _; simp [Except.isOk, Except.toBool]
  · intro sa' v hok
    unfold ScratchAllocator.allocate bufferView at hok
    by_cases h : sa.offset + (size + (sa.alignment - size % sa.alignment)) > sa.buffer_size
    · simp [h] at hok
    · have hview : ¬ (sa.offset + size ≥ sa.buffer_size) := by omega
      simp only [h, if_false, hview, ge_iff_le, if_neg] at hok
      cases hok
      dsimp only
      omega
  · intro hoff hsz
    unfold ScratchAllocator.allocate
    have h : sa.offset + (size + (sa.alignment - size % sa.alignment)) > sa.buffer_size := by
      omega
    simp [h]

/-- Witness for `c9_scratch_allocate_padding` at a fresh 256-byte allocator
with the default 256-byte alignment and a 64-byte request. -/
theorem c9_scratch_allocate_padding_witness :
    ((ScratchAllocator.allocate ⟨256, 0, 256⟩ 64).isOk = true ↔
      0 + 64 + (256 - 64 % 256) ≤ 256) ∧
    (∀ sa' v, ScratchAllocator.allocate ⟨256, 0, 256⟩ 64 = .ok (sa', v) →
      sa'.offset = 0 + 64 + (256 - 64 % 256)) ∧
    (0 = 0 → 64 = 256 →
      ScratchAllocator.allocate ⟨256, 0, 256⟩ 64 = .error .OutOfMemoryErr) :=
  c9_scratch_allocate_padding ⟨256, 0, 256⟩ 64 (by decide)

/-! ## Theorems: deferred deletion queue (C10) -/

/-- Run `k` successive calls to `next_frame`. -/
def DeletionQueue.run_frames : DeletionQueue → Nat → DeletionQueue
  | q, 0 => q
  | q, k + 1 => q.next_frame.run_frames k

/-- Iterating the item-list transformation of `next_frame`. -/
def iterFrameItems : Nat → List (Nat × Nat) → List (Nat × Nat)
  | 0, l => l
  | k + 1, l => iterFrameItems k (nextFrameItems l)

theorem run_frames_items (q : DeletionQueue) (k : Nat) :
    (q.run_frames k).items = iterFrameItems k q.items := by
  induction k generalizing q with
  | zero => rfl
  | succ k ih => exact ih q.next_frame

theorem nextFrameItems_append (l1 l2 : List (Nat × Nat)) :
    nextFrameItems (l1 ++ l2) = nextFrameItems l1 ++ nextFrameItems l2 := by
  unfold nextFrameItems
  rw [List.map_append, List.filter_append]

theorem iterFrameItems_append (k : Nat) (l1 l2 : List (Nat × Nat)) :
    iterFrameItems k (l1 ++ l2) = iterFrameItems k l1 ++ iterFrameItems k l2 := by
  induction k generalizing l1 l2 with
  | zero => rfl
  | succ k ih => simp [iterFrameItems, nextFrameItems_append, ih]

theorem iterFrameItems_single (tag m k : Nat) (hk : k < m) :
    iterFrameItems k [(tag, m)] = [(tag, m - k)] := by
  induction k generalizing m with
  | zero => simp [iterFrameItems]
  | succ k ih =>
    have h1 : 1 ≤ m - 1 := by omega
    have : nextFrameItems [(tag, m)] = [(tag, m - 1)] := by
      simp [nextFrameItems]
      omega
    rw [iterFrameItems, this, ih (m - 1) (by omega)]
    have harith : m - 1 - k = m - (k + 1) := by omega
    rw [harith]

theorem iterFrameItems_single_dead (tag m : Nat) (hm : 1 ≤ m) :
    iterFrameItems m [(tag, m)] = [] := by
  induction m with
  | zero => omega
  | succ m ih =>
    by_cases h : m = 0
    · subst h
      simp [iterFrameItems, nextFrameItems]
    · have : nextFrameItems [(tag, m + 1)] = [(tag, m)] := by
        simp [nextFrameItems]
        omega
      rw [iterFrameItems, this, ih (by omega)]

theorem iterFrameItems_fresh (tag k : Nat) (l : List (Nat × Nat))
    (hfresh : tag ∉ l.map Prod.fst) :
    tag ∉ (iterFrameItems k l).map Prod.fst := by
  induction k generalizing l with
  | zero => exact hfresh
  | succ k ih =>
    apply ih
    intro hmem
    apply hfresh
    unfold nextFrameItems at hmem
    simp only [List.map_map, List.mem_map] at hmem ⊢
    obtain ⟨x, hx, hfst⟩ := hmem
    have hx' := List.mem_filter.mp hx
    rcases List.mem_map.mp hx'.1 with ⟨y, hy, hxy⟩
    exact ⟨y, hy, by simp [← hxy] at hfst; simp [hfst]⟩

/--
**C10.** For every `DeletionQueue` with `max_ttl ≥ 1` and every item pushed
onto it (with a tag not already held), the item is retained by the first
`max_ttl - 1` subsequent `next_frame` calls - after `k < max_ttl` calls it is
still present with its ttl decremented by exactly `k` - and it is destroyed
exactly during the `max_ttl`-th call.  (`max_ttl = 0` is outside the
precondition: the first `next_frame` after a push would underflow the `u32`
ttl counter.)
-/
theorem c10_deletion_queue_ttl (q : DeletionQueue) (tag : Nat)
    (hm : 1 ≤ q.max_ttl) (hfresh : tag ∉ q.items.map Prod.fst) :
    (∀ k, k < q.max_ttl → (tag, q.max_ttl - k) ∈ ((q.push tag).run_frames k).items) ∧
    tag ∉ (((q.push tag).run_frames q.max_ttl).items.map Prod.fst) := by
  constructor
  · intro k hk
    rw [run_frames_items]
    show (tag, q.max_ttl - k) ∈ iterFrameItems k (q.items ++ [(tag, q.max_ttl)])
    rw [iterFrameItems_append, iterFrameItems_single tag q.max_ttl k hk]
    simp
  · rw [run_frames_items]
    show tag ∉ (iterFrameItems q.max_ttl (q.items ++ [(tag, q.max_ttl)])).map Prod.fst
    rw [iterFrameItems_append, iterFrameItems_single_dead tag q.max_ttl hm,
      List.append_nil]
    exact iterFrameItems_fresh tag q.max_ttl q.items hfresh

/-- Witness for `c10_deletion_queue_ttl`: queue with `max_ttl = 3`, one
pre-existing item tagged 7, pushing tag 42. -/
theorem c10_deletion_queue_ttl_witness :
    (∀ k, k < (3 : Nat) →
      (42, 3 - k) ∈ (((DeletionQueue.mk 3 [(7, 2)]).push 42).run_frames k).items) ∧
    42 ∉ ((((DeletionQueue.mk 3 [(7, 2)]).push 42).run_frames 3).items.map Prod.fst) :=
  c10_deletion_queue_ttl ⟨3, [(7, 2)]⟩ 42 (by decide) (by decide)

/-! ## Theorems: submission batch wait-count check (C4) and handle totality (C8) -/

/-- A demonstration batch holding two plain submits (handles 0 and 1). -/
def c4DemoBatch : SubmitBatch :=
  ((SubmitBatch.fresh.submit 10).1.submit 11).1

/--
**C4 counterexample.**  The claim states that *both* submit-after variants
fail with `MismatchedWaitCounts` on handle/stage lists of differing lengths.
`submit_after` performs no such check: called on a two-entry batch with two
valid handles and a single wait stage, it succeeds and appends the entry.
-/
theorem c4_counterexample :
    (c4DemoBatch.submit_after [⟨0⟩, ⟨1⟩] 12 [TOP_OF_PIPE]).isOk = true ∧
    [(⟨0⟩ : SubmitHandle), ⟨1⟩].length ≠ ([TOP_OF_PIPE] : List PipelineStage).length := by
  decide

theorem collect_wait_semaphores_ok (b : SubmitBatch) (handles : List SubmitHandle)
    (hvalid : ∀ h ∈ handles, (b.get_submit_semaphore h).isSome = true) :
    ∃ l, b.collect_wait_semaphores handles = .ok l := by
  induction handles with
  | nil => exact ⟨[], rfl⟩
  | cons h rest ih =>
    have hh := hvalid h (List.mem_cons_self h rest)
    obtain ⟨s, hs⟩ := Option.isSome_iff_exists.mp hh
    obtain ⟨l, hl⟩ := ih (fun x hx => hvalid x (List.mem_cons_of_mem h hx))
    exact ⟨s :: l, by unfold SubmitBatch.collect_wait_semaphores; rw [hs, hl]⟩

/--
**C4 (amended).**  Only `submit_for_present_after` checks the handle/stage
counts: with lists of differing lengths it fails with
`MismatchedWaitCounts`, the `ensure!` occurring before any mutation of the
batch (an `Except.error` in this state-passing model leaves the caller's
batch untouched).  `submit_after` performs no length check and, given valid
handles, succeeds, appending an entry whose wait-semaphore and wait-stage
lists have differing lengths.
-/
theorem c4_amended_wait_count_check (b : SubmitBatch) (cmd : Nat)
    (ifc : InFlightContext) (handles : List SubmitHandle)
    (stages : List PipelineStage)
    (hne : handles.length ≠ stages.length)
    (hvalid : ∀ h ∈ handles, (b.get_submit_semaphore h).isSome = true) :
    b.submit_for_present_after cmd ifc handles stages = .error .MismatchedWaitCounts ∧
    (b.submit_after handles cmd stages).isOk = true := by
  constructor
  · unfold SubmitBatch.submit_for_present_after
    rw [if_neg hne]
  · obtain ⟨l, hl⟩ := collect_wait_semaphores_ok b handles hvalid
    unfold SubmitBatch.submit_after
    rw [hl]
    rfl

/-- Witness for `c4_amended_wait_count_check` on the two-entry demo batch
with two handles and one wait stage. -/
theorem c4_amended_wait_count_check_witness :
    c4DemoBatch.submit_for_present_after 12 ⟨some 90, some 91⟩ [⟨0⟩, ⟨1⟩] [TOP_OF_PIPE]
        = .error .MismatchedWaitCounts ∧
    (c4DemoBatch.submit_after [⟨0⟩, ⟨1⟩] 12 [TOP_OF_PIPE]).isOk = true :=
  c4_amended_wait_count_check c4DemoBatch 12 ⟨some 90, some 91⟩ [⟨0⟩, ⟨1⟩]
    [TOP_OF_PIPE] (by decide) (by decide)

/--
**C8.**  Calling `submit_after` (via `SubmitHandle::then`) or
`submit_for_present_after` with a `SubmitHandle` whose index does not refer
to an existing entry of this batch panics (the `unwrap` on the missing
signal semaphore, `GErr.Panicked` in this model) instead of returning an
error: the batch API is total only for handles previously returned by the
same batch.
-/
theorem c8_invalid_handle_panics (b : SubmitBatch) (h : SubmitHandle)
    (wait_stage cmd : Nat) (ifc : InFlightContext)
    (hidx : b.submits.length ≤ h.index) :
    h.then wait_stage cmd b = .error .Panicked ∧
    b.submit_for_present_after cmd ifc [h] [wait_stage] = .error .Panicked := by
  have hget : b.get_submit_semaphore h = none := by
    unfold SubmitBatch.get_submit_semaphore
    rw [List.get?_eq_none.mpr hidx]
    rfl
  have hcollect : b.collect_wait_semaphores [h] = .error .Panicked := by
    unfold SubmitBatch.collect_wait_semaphores
    rw [hget]
  constructor
  · unfold SubmitHandle.then SubmitBatch.submit_after
    rw [hcollect]
  · have hlen : ([h] : List SubmitHandle).length = ([wait_stage] : List PipelineStage).length := rfl
    unfold SubmitBatch.submit_for_present_after
    rw [if_pos hlen, hcollect]

/-- Witness for `c8_invalid_handle_panics`: handle 0 on an empty batch. -/
theorem c8_invalid_handle_panics_witness :
    SubmitHandle.then ⟨0⟩ TOP_OF_PIPE 2 SubmitBatch.fresh = .error .Panicked ∧
    SubmitBatch.fresh.submit_for_present_after 2 ⟨some 5, some 6⟩ [⟨0⟩] [TOP_OF_PIPE]
        = .error .Panicked :=
  c8_invalid_handle_panics SubmitBatch.fresh ⟨0⟩ TOP_OF_PIPE 2 ⟨some 5, some 6⟩
    (by decide)

/-! ## Task-graph core

The generic task-graph engine (`task_graph.rs`) is not part of the sources;
its operations below are modelled from spec §4.2.  The graph container is
`petgraph::Graph`: nodes are identified by stable indices handed out in
insertion order.  We model it with an association list of (index, node)
pairs in insertion order plus an edge list in insertion order.  The one
divergence from `petgraph` is noted at `retain`: `retain_nodes` compacts
indices by swap-removal, which can permute surviving nodes, but it never
relocates the first node and no algorithm in scope performs an index-based
lookup after the retain, so an order-preserving filter models every
observable use.
-/

/-- Resource uid, the graph-matching key. -/
abbrev Uid := String × Nat

/-- A directed edge, labeled (as in the source) with the resource uid. -/
structure GEdge where
  src : Nat
  dst : Nat
  weight : Uid
deriving DecidableEq, Repr

/-- The task/barrier graph. -/
structure TGraph where
  nodes : List (Nat × GNode)
  edges : List GEdge
  next_id : Nat
deriving DecidableEq, Repr

/-- `TaskGraph::new`. -/
def TGraph.empty : TGraph :=
  ⟨[], [], 0⟩

/-- `Graph::node_weight`: look a node up by its stable index. -/
def lookupNode : List (Nat × GNode) → Nat → Option GNode
  | [], _ => none
  | p :: rest, i => if p.1 = i then some p.2 else lookupNode rest i

def TGraph.node_weight (g : TGraph) (i : Nat) : Option GNode :=
  lookupNode g.nodes i

/-- The outputs a node offers for dependency matching: a task's output
list, a barrier's guarded resource (spec §4.2: "task/barrier output"). -/
def GNode.node_outputs : GNode → List PassResource
  | .Task t => t.outputs
  | .Barrier b => [b.resource]

/-- Whether a node has an output that `is_dependency_of` a resource with
uid `u`. -/
def GNode.has_output_for (n : GNode) (u : Uid) : Bool :=
  n.node_outputs.any (fun o => o.is_dependency_of ⟨.Nothing, ⟨u.1, u.2⟩, 0, 0, none, none⟩)

/--
Modelled from the spec (§4.2): find "the most recent task/barrier output
whose resource `is_dependency_of` the input": the latest-inserted node with
a matching output, searching from the most recent insertion backwards (the
node currently being inserted was already inserted, so its own outputs are
candidates).
-/
def findRecentOutput : List (Nat × GNode) → Uid → Option Nat
  | [], _ => none
  | p :: rest, u =>
    match findRecentOutput rest u with
    | some i => some i
    | none => if p.2.has_output_for u then some p.1 else none

/-- Successors of `a` along the directed edges. -/
def outNeighbors (edges : List GEdge) (a : Nat) : List Nat :=
  (edges.filter (fun e => e.src = a)).map (fun e => e.dst)

/-- Fuel-bounded directed reachability (every node reaches itself; fuel
`edges.length` covers any simple path). -/
def reachFuel (edges : List GEdge) : Nat → Nat → Nat → Bool
  | 0, a, b => a = b
  | fuel + 1, a, b => a = b || (outNeighbors edges a).any (fun c => reachFuel edges fuel c b)

def TGraph.reaches (g : TGraph) (a b : Nat) : Bool :=
  reachFuel g.edges g.edges.length a b

/--
Modelled from the spec (§4.2): the per-input edge wiring of `add_task`.
For each input of the freshly inserted node `id`, in order: find the most
recent matching output; if one exists at node `src`, committing the edge
`src → id` must not create a cycle - "checked via reachability before
committing the edge" - i.e. `id` must not already reach `src`; on a cycle
the insertion fails with the cyclic-dependency error.  An input with no
producer yet contributes no edge.
-/
def addTaskEdges (id : Nat) : TGraph → List PassResource → Except GErr TGraph
  | g, [] => .ok g
  | g, input :: rest =>
    match findRecentOutput g.nodes input.uid with
    | none => addTaskEdges id g rest
    | some src =>
      if g.reaches id src then
        .error .CyclicDependency
      else
        addTaskEdges id ⟨g.nodes, g.edges ++ [⟨src, id, input.uid⟩], g.next_id⟩ rest

/--
Modelled from the spec (§4.2): `add_task` inserts the node, then adds one
edge per input from the most recent matching producer, failing with
`CyclicDependency` if an edge would close a cycle.
-/
def TGraph.add_task (g : TGraph) (t : PassNode) : Except GErr TGraph :=
  let id := g.next_id
  addTaskEdges id ⟨g.nodes ++ [(id, .Task t)], g.edges, id + 1⟩ t.inputs

/-- Remove the first occurrence of an edge (the split edge ceases to
exist once a barrier is interposed). -/
def eraseEdge : List GEdge → GEdge → List GEdge
  | [], _ => []
  | x :: rest, e => if x = e then rest else x :: eraseEdge rest e

/-- First resource in a list with the given uid. -/
def findResourceFor : List PassResource → Uid → Option PassResource
  | [], _ => none
  | r :: rest, u => if r.uid = u then some r else findResourceFor rest u

/--
Modelled from the spec (§4.2): the treatment of one edge by
`create_barrier_nodes`.  For an edge between two task nodes whose endpoint
resources (the producer's output and the consumer's input carrying the
edge's uid) have differing access/stage/layout, the edge is split by a
fresh barrier node built from the producer resource (`Barrier::new`, i.e.
`PassResourceBarrier.fresh`); identical access/stage/layout means no
barrier.
-/
def splitEdge (g : TGraph) (e : GEdge) : TGraph :=
  match g.node_weight e.src, g.node_weight e.dst with
  | some (.Task a), some (.Task b) =>
    match findResourceFor a.outputs e.weight, findResourceFor b.inputs e.weight with
    | some pres, some cres =>
      if (pres.usage.access, pres.stage, pres.layout)
          = (cres.usage.access, cres.stage, cres.layout) then
        g
      else
        let bid := g.next_id
        ⟨g.nodes ++ [(bid, .Barrier (PassResourceBarrier.fresh pres))],
          eraseEdge g.edges e ++ [⟨e.src, bid, e.weight⟩, ⟨bid, e.dst, e.weight⟩],
          bid + 1⟩
    | _, _ => g
  | _, _ => g

def splitEdges (g : TGraph) : List GEdge → TGraph
  | [] => g
  | e :: rest => splitEdges (splitEdge g e) rest

/-- Modelled from the spec (§4.2): `create_barrier_nodes` processes every
(task-to-task) edge present when the phase starts. -/
def TGraph.create_barrier_nodes (g : TGraph) : TGraph :=
  splitEdges g g.edges

/-! ## Barrier merging (`merge_identical_barriers`, `graph/pass_graph.rs`
lines 337-394) -/

/-- The `barriers!` macro: every (index, barrier) pair of the graph, in
index (= insertion) order. -/
def barrierNodes : List (Nat × GNode) → List (Nat × PassResourceBarrier)
  | [] => []
  | (i, .Barrier b) :: rest => (i, b) :: barrierNodes rest
  | (_, .Task _) :: rest => barrierNodes rest

/-- `graph.edges(node).next()`: an outgoing edge of `node`.  Wherever the
merge pass calls this, the node is a pre-merge barrier with exactly one
outgoing edge, so which one is picked is immaterial. -/
def firstOutEdge : List GEdge → Nat → Option GEdge
  | [], _ => none
  | e :: rest, i => if e.src = i then some e else firstOutEdge rest i

/-- `PassGraph::barrier_dst_resource` from `graph/pass_graph.rs` (lines
292-314): the consumer-side `PassResource` of a barrier, read off the
target task of its (single) outgoing edge. -/
def TGraph.barrier_dst_resource (g : TGraph) (node : Nat) : Except GErr PassResource :=
  match g.node_weight node with
  | none => .error .Panicked
  | some (.Task _) => .error .NodeNotFound
  | some (.Barrier bar) =>
    match firstOutEdge g.edges node with
    | none => .error .Panicked
    | some e =>
      match g.node_weight e.dst with
      | some (.Task task) =>
        match findResourceFor task.inputs bar.resource.uid with
        | some input => .ok input
        | none => .error .Panicked
      | _ => .error .Panicked

/-- The local state threaded through `merge_identical_barriers`:
`to_remove`, `edges_to_add` and the `barrier_flags` map. -/
structure MergeSt where
  to_remove : List Nat
  edges_to_add : List (Nat × Nat × Uid)
  barrier_flags : Nat → Option (PipelineStage × AccessFlags)

def insertFlags (m : Nat → Option (PipelineStage × AccessFlags)) (i : Nat)
    (v : PipelineStage × AccessFlags) : Nat → Option (PipelineStage × AccessFlags) :=
  fun k => if k = i then some v else m k

/-- The inner loop of `merge_identical_barriers`: for a fixed outer barrier
`(node, bar)` with consumer usage `dst_usage`, scan all barriers
`(other_node, other_bar)`; skip `node` itself and skip everything once
`node` is itself scheduled for removal; on a uid match, reject two
differing non-read usages as `IllegalTaskGraph`, otherwise schedule
`other_node` for removal, redirect its single outgoing edge onto `node`
and accumulate destination stage/access into `node`'s flags by bitwise or. -/
def mergeInner (g : TGraph) (node : Nat) (bar : PassResourceBarrier)
    (dst_usage : ResourceUsage) :
    MergeSt → List (Nat × PassResourceBarrier) → Except GErr MergeSt
  | st, [] => .ok st
  | st, (other_node, other_bar) :: rest =>
    if other_node = node then
      mergeInner g node bar dst_usage st rest
    else if node ∈ st.to_remove then
      mergeInner g node bar dst_usage st rest
    else
      match g.barrier_dst_resource other_node with
      | .error e => .error e
      | .ok other_resource =>
        if other_bar.resource.uid = bar.resource.uid then
          if other_resource.usage.is_read = false ∧ dst_usage.is_read = false
              ∧ other_resource.usage ≠ dst_usage then
            .error .IllegalTaskGraph
          else
            match firstOutEdge g.edges other_node with
            | none => .error .Panicked
            | some te =>
              match st.barrier_flags node with
              | none => .error .Panicked
              | some (stage, access) =>
                mergeInner g node bar dst_usage
                  ⟨st.to_remove ++ [other_node],
                    st.edges_to_add ++ [(node, te.dst, other_resource.uid)],
                    insertFlags st.barrier_flags node
                      (other_resource.stage ||| stage,
                        other_resource.usage.access ||| access)⟩
                  rest
        else
          mergeInner g node bar dst_usage st rest

/-- The outer loop of `merge_identical_barriers`: visit every barrier,
record its own destination stage/access in `barrier_flags`, then run the
inner scan over all barriers. -/
def mergeOuter (g : TGraph) (bs : List (Nat × PassResourceBarrier)) :
    MergeSt → List (Nat × PassResourceBarrier) → Except GErr MergeSt
  | st, [] => .ok st
  | st, (node, bar) :: rest =>
    match g.barrier_dst_resource node with
    | .error e => .error e
    | .ok dst_resource =>
      match mergeInner g node bar dst_resource.usage
          ⟨st.to_remove, st.edges_to_add,
            insertFlags st.barrier_flags node
              (dst_resource.stage, dst_resource.usage.access)⟩ bs with
      | .error e => .error e
      | .ok st2 => mergeOuter g bs st2 rest

/-- `Graph::update_edge`: overwrite the weight of the first `src → dst`
edge, or append a fresh edge if none exists. -/
def updateEdgeList (s d : Nat) (w : Uid) : List GEdge → List GEdge
  | [] => [⟨s, d, w⟩]
  | e :: rest =>
    if e.src = s ∧ e.dst = d then ⟨s, d, w⟩ :: rest else e :: updateEdgeList s d w rest

def applyEdgeAdds : List (Nat × Nat × Uid) → List GEdge → List GEdge
  | [], es => es
  | (s, d, w) :: rest, es => applyEdgeAdds rest (updateEdgeList s d w es)

/-- The final flag-application loop: every barrier node takes its merged
destination stage/access from `barrier_flags` (the source `unwrap`s the
lookup; a missing entry would be a panic). -/
def applyFlags (flags : Nat → Option (PipelineStage × AccessFlags)) :
    List (Nat × GNode) → Except GErr (List (Nat × GNode))
  | [] => .ok []
  | (i, .Task t) :: rest =>
    match applyFlags flags rest with
    | .error e => .error e
    | .ok l => .ok ((i, .Task t) :: l)
  | (i, .Barrier b) :: rest =>
    match flags i with
    | none => .error .Panicked
    | some (stage, access) =>
      match applyFlags flags rest with
      | .error e => .error e
      | .ok l => .ok ((i, .Barrier ⟨b.resource, b.src_access, access, b.src_stage, stage⟩) :: l)

/-- `Graph::retain_nodes` keeping the nodes not scheduled for removal
(incident edges are removed with their nodes).  `petgraph` compacts by
swap-removal, which can permute the survivors but never relocates the
first node; no index-based lookup happens after this point, so the
order-preserving filter models every observable use. -/
def retainNodes (to_remove : List Nat) (nodes : List (Nat × GNode)) : List (Nat × GNode) :=
  nodes.filter (fun p => ¬ p.1 ∈ to_remove)

def retainEdges (to_remove : List Nat) (edges : List GEdge) : List GEdge :=
  edges.filter (fun e => ¬ e.src ∈ to_remove ∧ ¬ e.dst ∈ to_remove)

/-- `PassGraph::merge_identical_barriers` from `graph/pass_graph.rs` (lines
337-394). -/
def TGraph.merge_identical_barriers (g : TGraph) : Except GErr TGraph :=
  match mergeOuter g (barrierNodes g.nodes) ⟨[], [], fun _ => none⟩ (barrierNodes g.nodes) with
  | .error e => .error e
  | .ok st =>
    match applyFlags st.barrier_flags g.nodes with
    | .error e => .error e
    | .ok nodes1 =>
      .ok ⟨retainNodes st.to_remove nodes1,
        retainEdges st.to_remove (applyEdgeAdds st.edges_to_add g.edges),
        g.next_id⟩

/-! ## Pass graph (`graph/pass_graph.rs`) -/

/-- The per-name last-usage table (`HashMap<String, (usize, PipelineStage)>`
in the source; only ever read pointwise, hence modelled as a function). -/
abbrev UsageTable := String → Option (Nat × PipelineStage)

/--
Modelled from the spec (§3/§6): the caller-authored `Pass` description
(`graph/pass.rs` is not in the sources): name, optional debug color,
ordered inputs, ordered outputs, recording callback (opaque, omitted),
render-pass flag.
-/
structure Pass where
  name : String
  color : Option Unit
  inputs : List PassResource
  outputs : List PassResource
  is_renderpass : Bool
deriving DecidableEq, Repr

/-- `PassGraph` from `graph/pass_graph.rs` (lines 63-72). -/
structure PassGraph where
  graph : TGraph
  source : Nat
  swapchain : Option VirtualResource
  last_usages : UsageTable

/-- The synthetic `_source` task inserted by `PassGraph::new`. -/
def sourcePassNode : PassNode :=
  ⟨"_source", none, [], [], false⟩

/-- `PassGraph::new` from `graph/pass_graph.rs` (lines 155-177): insert the
synthetic source task (which cannot fail - it has no inputs, the source
`unwrap`s this) and capture its index, the first index handed out (0). -/
def PassGraph.new (swapchain : Option VirtualResource) : PassGraph :=
  let g :=
    match TGraph.empty.add_task sourcePassNode with
    | .ok g => g
    | .error _ => TGraph.empty
  ⟨g, 0, swapchain, fun _ => none⟩

/-- `PassGraph::update_last_usage` from `graph/pass_graph.rs` (lines
248-266): keep the entry with the strictly greater version. -/
def updateLastUsage (m : UsageTable) (resource : VirtualResource)
    (stage : PipelineStage) : UsageTable :=
  fun k =>
    if k = resource.name then
      match m resource.name with
      | some (version0, stage0) =>
        if resource.version > version0 then
          some (resource.version, stage)
        else
          some (version0, stage0)
      | none => some (resource.version, stage)
    else m k

/-- Fold `update_last_usage` over a list of (resource, stage) references,
in order. -/
def processRefs : UsageTable → List (VirtualResource × PipelineStage) → UsageTable
  | m, [] => m
  | m, (r, s) :: rest => processRefs (updateLastUsage m r s) rest

/-- The references recorded by `add_pass` for one pass: every input then
every output, each as (virtual resource, stage). -/
def passRefs (p : Pass) : List (VirtualResource × PipelineStage) :=
  (p.inputs ++ p.outputs).map (fun r => (r.resource, r.stage))

/-- Replace the node stored at index `i` (`node_weight_mut`). -/
def replaceNodeList (i : Nat) (n : GNode) : List (Nat × GNode) → List (Nat × GNode)
  | [] => []
  | p :: rest =>
    if p.1 = i then (p.1, n) :: replaceNodeList i n rest
    else p :: replaceNodeList i n rest

def TGraph.replace_node (g : TGraph) (i : Nat) (n : GNode) : TGraph :=
  ⟨replaceNodeList i n g.nodes, g.edges, g.next_id⟩

/-- The source-node outputs registered by `add_pass` for the source inputs
of a pass: usage `Nothing`, stage `NONE` (set later), layout `UNDEFINED`. -/
def sourceOutputsFor (inputs : List PassResource) : List PassResource :=
  (inputs.filter (fun i => i.resource.is_source)).map
    (fun i => ⟨.Nothing, i.resource, STAGE_NONE, LAYOUT_UNDEFINED, none, none⟩)

/-- `PassGraph::add_pass` from `graph/pass_graph.rs` (lines 182-219):
register source outputs for source inputs, record last usages for every
input then every output, then insert the pass as a task node. -/
def PassGraph.add_pass (pg : PassGraph) (pass : Pass) : Except GErr PassGraph :=
  match pg.graph.node_weight pg.source with
  | some (.Task src) =>
    let g1 := pg.graph.replace_node pg.source
      (.Task ⟨src.identifier, src.color, src.inputs,
        src.outputs ++ sourceOutputsFor pass.inputs, src.is_renderpass⟩)
    let lu := processRefs pg.last_usages (passRefs pass)
    match g1.add_task ⟨pass.name, pass.color, pass.inputs, pass.outputs,
        pass.is_renderpass⟩ with
    | .error e => .error e
    | .ok g2 => .ok ⟨g2, pg.source, pg.swapchain, lu⟩
  | _ => .error .Panicked

/-- The per-output stage stamping of `set_source_stages`: swapchain-
associated outputs get `COLOR_ATTACHMENT_OUTPUT`, every other output the
stage recorded in the last-usage table for its name (the source `unwrap`s
the table lookup). -/
def stampSourceOutputs (sw : VirtualResource) (lu : UsageTable) :
    List PassResource → Except GErr (List PassResource)
  | [] => .ok []
  | o :: rest =>
    match (if o.resource.is_associated_with sw then
            some COLOR_ATTACHMENT_OUTPUT
          else
            match lu o.resource.name with
            | some (_, stage) => some stage
            | none => none) with
    | none => .error .Panicked
    | some st =>
      match stampSourceOutputs sw lu rest with
      | .error e => .error e
      | .ok l =>
        .ok (⟨o.usage, o.resource, st, o.layout, o.clear_value, o.load_op⟩ :: l)

/-- `PassGraph::set_source_stages` from `graph/pass_graph.rs` (lines
317-334): when no swapchain is designated the comparison falls back to the
internal `__none__internal__` image. -/
def PassGraph.set_source_stages (pg : PassGraph) : Except GErr PassGraph :=
  match pg.graph.node_weight pg.source with
  | some (.Task src) =>
    let sw := pg.swapchain.getD (VirtualResource.image "__none__internal__")
    match stampSourceOutputs sw pg.last_usages src.outputs with
    | .error e => .error e
    | .ok outs =>
      .ok ⟨pg.graph.replace_node pg.source
          (.Task ⟨src.identifier, src.color, src.inputs, outs, src.is_renderpass⟩),
        pg.source, pg.swapchain, pg.last_usages⟩
  | _ => .error .Panicked

/-- `PassGraph::build` from `graph/pass_graph.rs` (lines 222-228): stage
assignment, barrier creation, barrier merge.  The built graph value wraps
the final `PassGraph` state. -/
def PassGraph.build (pg : PassGraph) : Except GErr PassGraph :=
  match pg.set_source_stages with
  | .error e => .error e
  | .ok pg1 =>
    match pg1.graph.create_barrier_nodes.merge_identical_barriers with
    | .error e => .error e
    | .ok g2 => .ok ⟨g2, pg1.source, pg1.swapchain, pg1.last_usages⟩

/-- A sequence of `add_pass` calls, stopping at the first error. -/
def PassGraph.add_passes (pg : PassGraph) : List Pass → Except GErr PassGraph
  | [] => .ok pg
  | p :: rest =>
    match pg.add_pass p with
    | .error e => .error e
    | .ok pg1 => pg1.add_passes rest

/-- The barrier nodes of a graph guarding the given resource uid. -/
def barriersGuardingList : List (Nat × GNode) → Uid → List PassResourceBarrier
  | [], _ => []
  | (_, .Barrier b) :: rest, u =>
    if b.resource.uid = u then b :: barriersGuardingList rest u
    else barriersGuardingList rest u
  | (_, .Task _) :: rest, u => barriersGuardingList rest u

def TGraph.barriers_guarding (g : TGraph) (u : Uid) : List PassResourceBarrier :=
  barriersGuardingList g.nodes u

/-- The outputs of the node the graph's source index refers to (empty when
that index does not name a task). -/
def PassGraph.source_outputs (pg : PassGraph) : List PassResource :=
  match pg.graph.node_weight pg.source with
  | some (.Task t) => t.outputs
  | _ => []

/-! ## Scenario graphs for the merge claims (C1, C2)

One producer pass `P1` writing version 1 of resource `"R"`, and two
consumer passes `P2`, `P3` whose inputs reference that same version, added
in either order.
-/

def rcOut (w : ResourceUsage) (S L : Nat) : PassResource :=
  ⟨w, ⟨"R", 1⟩, S, L, none, none⟩

def rcIn (u : ResourceUsage) (S L : Nat) : PassResource :=
  ⟨u, ⟨"R", 1⟩, S, L, none, none⟩

def producerPass (w : ResourceUsage) (S1 L1 : Nat) : Pass :=
  ⟨"P1", none, [], [rcOut w S1 L1], false⟩

def consumerPass (nm : String) (u : ResourceUsage) (S L : Nat) : Pass :=
  ⟨nm, none, [rcIn u S L], [], false⟩

/-- Add `P1`, then the two consumers in the order selected by `p2First`,
then build. -/
def threePassBuild (w u2 u3 : ResourceUsage) (S1 S2 S3 L1 L2 L3 : Nat)
    (p2First : Bool) : Except GErr PassGraph :=
  match (PassGraph.new none).add_pass (producerPass w S1 L1) with
  | .error e => .error e
  | .ok g =>
    match g.add_pass
        (if p2First then consumerPass "P2" u2 S2 L2 else consumerPass "P3" u3 S3 L3) with
    | .error e => .error e
    | .ok g =>
      match g.add_pass
          (if p2First then consumerPass "P3" u3 S3 L3 else consumerPass "P2" u2 S2 L2) with
      | .error e => .error e
      | .ok g => g.build

/--
**C1.**  With a pass `P1` writing version 1 of resource `R` and passes
`P2`, `P3` reading it at stages `S2`, `S3` (any read usages `u2`, `u3`
whose access flags differ from the write's, so that barriers are
synthesized at all), `build()` succeeds and the built graph contains
exactly one barrier guarding `R`: its destination stage is `S2 ||| S3` and
its destination access the bitwise or of the two reads' access flags - and
the result is the same whether `P2` or `P3` was added first.
-/
theorem c1_merge_commutative (w u2 u3 : ResourceUsage) (S1 S2 S3 L1 L2 L3 : Nat)
    (_hw : w.is_read = false) (h2 : u2.is_read = true) (h3 : u3.is_read = true)
    (ha2 : w.access ≠ u2.access) (ha3 : w.access ≠ u3.access) :
    (threePassBuild w u2 u3 S1 S2 S3 L1 L2 L3 true).map
        (fun b => b.graph.barriers_guarding ("R", 1))
      = .ok [⟨rcOut w S1 L1, w.access, u2.access ||| u3.access, S1, S2 ||| S3⟩] ∧
    (threePassBuild w u2 u3 S1 S2 S3 L1 L2 L3 false).map
        (fun b => b.graph.barriers_guarding ("R", 1))
      = .ok [⟨rcOut w S1 L1, w.access, u2.access ||| u3.access, S1, S2 ||| S3⟩] := by
  constructor <;>
  simp [threePassBuild, PassGraph.new, PassGraph.add_pass, PassGraph.build,
    PassGraph.set_source_stages, PassGraph.add_passes, TGraph.empty, TGraph.add_task,
    addTaskEdges, findRecentOutput, GNode.has_output_for, GNode.node_outputs,
    PassResource.is_dependency_of, PassResource.uid, VirtualResource.uid,
    TGraph.node_weight, lookupNode, TGraph.reaches, reachFuel, outNeighbors,
    TGraph.replace_node, replaceNodeList, sourceOutputsFor, VirtualResource.is_source,
    VirtualResource.is_associated_with, VirtualResource.image, Option.getD,
    processRefs, passRefs, updateLastUsage, sourcePassNode, producerPass, consumerPass,
    rcOut, rcIn, stampSourceOutputs, TGraph.create_barrier_nodes, splitEdges, splitEdge,
    findResourceFor, eraseEdge, PassResourceBarrier.fresh, TGraph.merge_identical_barriers,
    barrierNodes, mergeOuter, mergeInner, TGraph.barrier_dst_resource, firstOutEdge,
    insertFlags, applyFlags, applyEdgeAdds, updateEdgeList, retainNodes, retainEdges,
    TGraph.barriers_guarding, barriersGuardingList, Except.map,
    ha2, ha3, h2, h3, Nat.lor_comm,
    STAGE_NONE, LAYOUT_UNDEFINED, COLOR_ATTACHMENT_OUTPUT]

/-- Witness for `c1_merge_commutative`: `ShaderWrite` producer at stage 1,
`ShaderRead` at stage 4 and `TransferRead` at stage 8 (destination stage
`12`, destination access `0x20 ||| 0x800 = 0x820`). -/
theorem c1_merge_commutative_witness :
    (threePassBuild .ShaderWrite .ShaderRead .TransferRead 1 4 8 0 0 0 true).map
        (fun b => b.graph.barriers_guarding ("R", 1))
      = .ok [⟨rcOut .ShaderWrite 1 0, ResourceUsage.ShaderWrite.access,
          ResourceUsage.ShaderRead.access ||| ResourceUsage.TransferRead.access, 1, 4 ||| 8⟩] ∧
    (threePassBuild .ShaderWrite .ShaderRead .TransferRead 1 4 8 0 0 0 false).map
        (fun b => b.graph.barriers_guarding ("R", 1))
      = .ok [⟨rcOut .ShaderWrite 1 0, ResourceUsage.ShaderWrite.access,
          ResourceUsage.ShaderRead.access ||| ResourceUsage.TransferRead.access, 1, 4 ||| 8⟩] :=
  c1_merge_commutative .ShaderWrite .ShaderRead .TransferRead 1 4 8 0 0 0
    (by decide) (by decide) (by decide) (by decide) (by decide)

/--
**C2.**  With `P1` producing version 1 of `R` and two consumers whose
inputs use it with differing non-read usages `w2 ≠ w3` (conflicting
writes sharing the same prior version), `build()` fails with
`IllegalTaskGraph` and no built graph is returned.
-/
theorem c2_conflicting_writes_rejected (w w2 w3 : ResourceUsage)
    (S1 S2 S3 L1 L2 L3 : Nat)
    (h2 : w2.is_read = false) (h3 : w3.is_read = false) (hne : w2 ≠ w3)
    (ha2 : w.access ≠ w2.access) (ha3 : w.access ≠ w3.access) :
    threePassBuild w w2 w3 S1 S2 S3 L1 L2 L3 true = .error .IllegalTaskGraph := by
  have hne' : w3 ≠ w2 := Ne.symm hne
  simp [threePassBuild, PassGraph.new, PassGraph.add_pass, PassGraph.build,
    PassGraph.set_source_stages, PassGraph.add_passes, TGraph.empty, TGraph.add_task,
    addTaskEdges, findRecentOutput, GNode.has_output_for, GNode.node_outputs,
    PassResource.is_dependency_of, PassResource.uid, VirtualResource.uid,
    TGraph.node_weight, lookupNode, TGraph.reaches, reachFuel, outNeighbors,
    TGraph.replace_node, replaceNodeList, sourceOutputsFor, VirtualResource.is_source,
    VirtualResource.is_associated_with, VirtualResource.image, Option.getD,
    processRefs, passRefs, updateLastUsage, sourcePassNode, producerPass, consumerPass,
    rcOut, rcIn, stampSourceOutputs, TGraph.create_barrier_nodes, splitEdges, splitEdge,
    findResourceFor, eraseEdge, PassResourceBarrier.fresh, TGraph.merge_identical_barriers,
    barrierNodes, mergeOuter, mergeInner, TGraph.barrier_dst_resource, firstOutEdge,
    insertFlags, applyFlags, applyEdgeAdds, updateEdgeList, retainNodes, retainEdges,
    ha2, ha3, h2, h3, hne',
    STAGE_NONE, LAYOUT_UNDEFINED, COLOR_ATTACHMENT_OUTPUT]

/-- Witness for `c2_conflicting_writes_rejected`: a `TransferWrite`
producer with `ShaderWrite` and color-attachment consumers. -/
theorem c2_conflicting_writes_rejected_witness :
    threePassBuild .TransferWrite .ShaderWrite (.Attachment .Color) 1 4 8 0 0 0 true
      = .error .IllegalTaskGraph :=
  c2_conflicting_writes_rejected .TransferWrite .ShaderWrite (.Attachment .Color)
    1 4 8 0 0 0 (by decide) (by decide) (by decide) (by decide) (by decide)

/-! ## Scenario graphs for the cycle claim (C3) -/

/-- Pass `A`: reads what `B` writes (`X@1`), writes `Y@1`. -/
def c3PassA : Pass :=
  ⟨"A", none, [⟨.ShaderRead, ⟨"X", 1⟩, 4, 0, none, none⟩],
    [⟨.ShaderWrite, ⟨"Y", 1⟩, 8, 0, none, none⟩], false⟩

/-- Pass `B`: reads what `A` writes (`Y@1`), writes `X@1`. -/
def c3PassB : Pass :=
  ⟨"B", none, [⟨.ShaderRead, ⟨"Y", 1⟩, 4, 0, none, none⟩],
    [⟨.ShaderWrite, ⟨"X", 1⟩, 8, 0, none, none⟩], false⟩

/-- Add the mutually dependent `A` then `B` and build. -/
def c3MutualBuild : Except GErr PassGraph :=
  match (PassGraph.new none).add_pass c3PassA with
  | .error e => .error e
  | .ok g =>
    match g.add_pass c3PassB with
    | .error e => .error e
    | .ok g => g.build

/-- A pass whose input and output carry the same uid (`R@1`): the one edge
committed at its own insertion is a self-loop. -/
def c3SelfRefPass : Pass :=
  ⟨"C", none, [⟨.ShaderRead, ⟨"R", 1⟩, 4, 0, none, none⟩],
    [⟨.ShaderWrite, ⟨"R", 1⟩, 8, 0, none, none⟩], false⟩

/-- Whether some edge of the graph closes a directed cycle. -/
def TGraph.has_cycle (g : TGraph) : Bool :=
  g.edges.any (fun e => g.reaches e.dst e.src)

/-- The error of a failed computation, if any (a decidable observation on
results whose success values carry functions). -/
def errOf {α : Type} : Except GErr α → Option GErr
  | .error e => some e
  | .ok _ => none

/--
**C3 counterexample.**  `c3PassA` and `c3PassB` form a uid-level dependency
cycle (`A` reads `X@1`, which `B` writes; `B` reads `Y@1`, which `A`
writes), yet `add_pass`/`build` succeed: when `A` is inserted no producer
of `X@1` exists yet, so that input simply gets no edge, and `B`'s later
output can no longer be connected to it - the claimed `CyclicDependency`
failure never happens.
-/
theorem c3_counterexample :
    (c3PassA.inputs.map PassResource.uid = [("X", 1)] ∧
      c3PassB.outputs.map PassResource.uid = [("X", 1)] ∧
      c3PassB.inputs.map PassResource.uid = [("Y", 1)] ∧
      c3PassA.outputs.map PassResource.uid = [("Y", 1)]) ∧
    c3MutualBuild.isOk = true := by
  decide

/--
**C3 (amended).**  `add_pass` fails with `CyclicDependency` exactly when an
edge committed at insertion time would close a cycle - e.g. a pass whose
input and output reference the same resource uid.  A mutual dependency
cycle between two separately added passes is *not* detected: inputs are
matched only against outputs already in the graph, so the backward edge is
never created and build succeeds - though the graph that is returned is
itself acyclic (the cycle-closing edge is absent, not present).
-/
theorem c3_amended_cycle_check :
    errOf ((PassGraph.new none).add_pass c3SelfRefPass) = some .CyclicDependency ∧
    c3MutualBuild.isOk = true ∧
    (c3MutualBuild.toOption.map (fun b => b.graph.has_cycle)) = some false := by
  decide

/-! ## The last-usage table characterization (C6) -/

/-- All references among `refs` to the given resource name. -/
def relevantRefs (refs : List (VirtualResource × PipelineStage)) (name : String) :
    List (VirtualResource × PipelineStage) :=
  refs.filter (fun r => r.1.name = name)

/-- The maximum version among all references to `name`. -/
def maxVersionFor (refs : List (VirtualResource × PipelineStage)) (name : String) : Nat :=
  ((relevantRefs refs name).map (fun r => r.1.version)).foldl max 0

/--
The claim-side description of the last-usage table, following the spec's
words rather than the code: each name maps to the maximum version seen
among all references to that name, paired with the pipeline stage of the
reference carrying that maximum version - the *earliest-inserted* one when
several references tie on the maximum version.
-/
def specLastUsage (refs : List (VirtualResource × PipelineStage)) (name : String) :
    Option (Nat × PipelineStage) :=
  match (relevantRefs refs name).find? (fun r => r.1.version = maxVersionFor refs name) with
  | some r => some (r.1.version, r.2)
  | none => none

theorem le_foldl_max (xs : List Nat) : ∀ a, a ≤ xs.foldl max a := by
  induction xs with
  | nil => intro a; exact Nat.le_refl a
  | cons x xs ih =>
    intro a
    exact Nat.le_trans (Nat.le_max_left a x) (ih (max a x))

theorem mem_le_foldl_max (xs : List Nat) : ∀ a x, x ∈ xs → x ≤ xs.foldl max a := by
  induction xs with
  | nil => intro a x hx; cases hx
  | cons y ys ih =>
    intro a x hx
    rcases List.mem_cons.mp hx with h | h
    · subst h
      exact Nat.le_trans (Nat.le_max_right a x) (le_foldl_max ys (max a x))
    · exact ih (max a y) x h

theorem foldl_max_attained (xs : List Nat) : ∀ a, xs.foldl max a = a ∨ xs.foldl max a ∈ xs := by
  induction xs with
  | nil => intro a; exact Or.inl rfl
  | cons y ys ih =>
    intro a
    rcases ih (max a y) with h | h
    · rcases max_choice a y with hm | hm
      · exact Or.inl (by rw [List.foldl_cons, h, hm])
      · refine Or.inr ?_
        rw [List.foldl_cons, h, hm]
        exact List.mem_cons_self y ys
    · exact Or.inr (List.mem_cons_of_mem y h)

theorem find?_append_none {α : Type} (l1 l2 : List α) (p : α → Bool)
    (h : l1.find? p = none) : (l1 ++ l2).find? p = l2.find? p := by
  induction l1 with
  | nil => rfl
  | cons x xs ih =>
    cases hp : p x with
    | true => simp [List.find?_cons, hp] at h
    | false =>
      simp only [List.find?_cons, hp] at h
      simp only [List.cons_append, List.find?_cons, hp]
      exact ih h

theorem find?_append_some {α : Type} (l1 l2 : List α) (p : α → Bool) (x : α)
    (h : l1.find? p = some x) : (l1 ++ l2).find? p = some x := by
  induction l1 with
  | nil => cases h
  | cons y ys ih =>
    cases hp : p y with
    | true =>
      simp only [List.find?_cons, hp] at h
      simp only [List.cons_append, List.find?_cons, hp]
      exact h
    | false =>
      simp only [List.find?_cons, hp] at h
      simp only [List.cons_append, List.find?_cons, hp]
      exact ih h

theorem processRefs_append (m : UsageTable)
    (l1 l2 : List (VirtualResource × PipelineStage)) :
    processRefs m (l1 ++ l2) = processRefs (processRefs m l1) l2 := by
  induction l1 generalizing m with
  | nil => rfl
  | cons r rest ih =>
    obtain ⟨rv, rs⟩ := r
    exact ih (updateLastUsage m rv rs)

theorem relevantRefs_append (l1 l2 : List (VirtualResource × PipelineStage))
    (name : String) :
    relevantRefs (l1 ++ l2) name = relevantRefs l1 name ++ relevantRefs l2 name := by
  unfold relevantRefs
  rw [List.filter_append]

theorem version_le_maxVersionFor (refs : List (VirtualResource × PipelineStage))
    (name : String) (r : VirtualResource × PipelineStage)
    (hr : r ∈ relevantRefs refs name) :
    r.1.version ≤ maxVersionFor refs name :=
  mem_le_foldl_max _ 0 _ (List.mem_map_of_mem _ hr)

theorem maxVersionFor_attained (refs : List (VirtualResource × PipelineStage))
    (name : String) (hne : relevantRefs refs name ≠ []) :
    ∃ r ∈ relevantRefs refs name, r.1.version = maxVersionFor refs name := by
  rcases foldl_max_attained ((relevantRefs refs name).map (fun r => r.1.version)) 0 with h | h
  · have hM : maxVersionFor refs name = 0 := h
    obtain ⟨r0, hr0⟩ := List.exists_mem_of_ne_nil _ hne
    have hle := version_le_maxVersionFor refs name r0 hr0
    exact ⟨r0, hr0, by omega⟩
  · rcases List.mem_map.mp h with ⟨r, hr, hv⟩
    exact ⟨r, hr, hv⟩

theorem maxVersionFor_append_single (l : List (VirtualResource × PipelineStage))
    (rv : VirtualResource) (rs : PipelineStage) (name : String) (h : rv.name = name) :
    maxVersionFor (l ++ [(rv, rs)]) name = max (maxVersionFor l name) rv.version := by
  unfold maxVersionFor relevantRefs
  rw [List.filter_append, List.map_append, List.foldl_append]
  simp [h]

theorem maxVersionFor_append_single_other (l : List (VirtualResource × PipelineStage))
    (rv : VirtualResource) (rs : PipelineStage) (name : String) (h : ¬ rv.name = name) :
    maxVersionFor (l ++ [(rv, rs)]) name = maxVersionFor l name := by
  unfold maxVersionFor relevantRefs
  rw [List.filter_append]
  simp [h]

/-- The last-usage fold from `update_last_usage` computes exactly the
claim-side table: maximum version per name, stage of the earliest
reference attaining it. -/
theorem processRefs_eq_specLastUsage (refs : List (VirtualResource × PipelineStage))
    (name : String) :
    processRefs (fun _ => none) refs name = specLastUsage refs name := by
  induction refs using List.reverseRecOn with
  | nil => rfl
  | append_singleton l r ih =>
    obtain ⟨rv, rs⟩ := r
    rw [processRefs_append]
    show updateLastUsage (processRefs (fun _ => none) l) rv rs name
      = specLastUsage (l ++ [(rv, rs)]) name
    unfold updateLastUsage
    by_cases hname : name = rv.name
    · have hname1 : rv.name = name := hname.symm
      rw [if_pos hname, ← hname, ih]
      by_cases hrel : relevantRefs l name = []
      · have hspec : specLastUsage l name = none := by
          unfold specLastUsage
          rw [hrel]
          rfl
        rw [hspec]
        have hM : maxVersionFor (l ++ [(rv, rs)]) name = rv.version := by
          rw [maxVersionFor_append_single l rv rs name hname1]
          have hM0 : maxVersionFor l name = 0 := by
            unfold maxVersionFor
            rw [hrel]
            rfl
          rw [hM0]
          omega
        unfold specLastUsage
        rw [relevantRefs_append, hrel]
        simp [relevantRefs, hM, hname1]
      · obtain ⟨rmax, hrmem, hrv⟩ := maxVersionFor_attained l name hrel
        have hsome : ∃ rf, (relevantRefs l name).find?
            (fun r => r.1.version = maxVersionFor l name) = some rf := by
          rcases hfind : (relevantRefs l name).find?
              (fun r => r.1.version = maxVersionFor l name) with _ | rf
          · rw [List.find?_eq_none] at hfind
            exact absurd (by simp [hrv]) (hfind rmax hrmem)
          · exact ⟨rf, hfind⟩
        obtain ⟨rf, hrf⟩ := hsome
        have hrfv : rf.1.version = maxVersionFor l name := by
          have := List.find?_some hrf
          exact of_decide_eq_true this
        have hspec : specLastUsage l name = some (rf.1.version, rf.2) := by
          unfold specLastUsage
          rw [hrf]
        rw [hspec]
        dsimp only
        by_cases hgt : rv.version > rf.1.version
        · rw [if_pos hgt]
          have hM : maxVersionFor (l ++ [(rv, rs)]) name = rv.version := by
            rw [maxVersionFor_append_single l rv rs name hname1]
            omega
          have hnone : (relevantRefs l name).find?
              (fun x => x.1.version = maxVersionFor (l ++ [(rv, rs)]) name) = none := by
            rw [List.find?_eq_none]
            intro x hx
            have hle := version_le_maxVersionFor l name x hx
            simp only [hM, decide_eq_true_eq]
            omega
          unfold specLastUsage
          rw [relevantRefs_append, find?_append_none _ _ _ hnone]
          simp [relevantRefs, hM, hname1]
        · rw [if_neg hgt]
          have hM : maxVersionFor (l ++ [(rv, rs)]) name = maxVersionFor l name := by
            rw [maxVersionFor_append_single l rv rs name hname1]
            omega
          unfold specLastUsage
          rw [relevantRefs_append]
          simp only [hM]
          rw [find?_append_some _ _ _ _ hrf]
    · rw [if_neg hname, ih]
      have hname2 : ¬ rv.name = name := fun hh => hname hh.symm
      have hfilter : relevantRefs (l ++ [(rv, rs)]) name = relevantRefs l name := by
        rw [relevantRefs_append]
        simp [relevantRefs, hname2]
      unfold specLastUsage
      rw [hfilter, maxVersionFor_append_single_other l rv rs name hname2]

theorem add_pass_last_usages (pg : PassGraph) (p : Pass) (pg1 : PassGraph)
    (h : pg.add_pass p = .ok pg1) :
    pg1.last_usages = processRefs pg.last_usages (passRefs p) := by
  unfold PassGraph.add_pass at h
  split at h
  · dsimp only at h
    split at h
    · cases h
    · cases h
      rfl
  · cases h

theorem add_passes_last_usages : ∀ (ps : List Pass) (pg pg' : PassGraph),
    pg.add_passes ps = .ok pg' →
    pg'.last_usages = processRefs pg.last_usages ((ps.map passRefs).flatten) := by
  intro ps
  induction ps with
  | nil =>
    intro pg pg' h
    cases h
    rfl
  | cons p rest ih =>
    intro pg pg' h
    unfold PassGraph.add_passes at h
    split at h
    · cases h
    · case _ pg1 heq =>
      rw [ih pg1 pg' h, add_pass_last_usages pg p pg1 heq]
      rw [List.map_cons, List.flatten_cons, processRefs_append]

/--
**C6.**  For every sequence of `add_pass` calls, the last-usage table maps
each resource name to the maximum version among all inputs and outputs
referencing that name, paired with the stage of that maximum-version
reference; an entry is replaced only for a strictly greater version, so on
a version tie the earlier-inserted reference's stage is kept
(`specLastUsage` is defined by those words; the theorem equates the table
built by the code with it).
-/
theorem c6_last_usage_table (sw : Option VirtualResource) (ps : List Pass)
    (pg : PassGraph) (h : (PassGraph.new sw).add_passes ps = .ok pg)
    (name : String) :
    pg.last_usages name = specLastUsage ((ps.map passRefs).flatten) name := by
  rw [add_passes_last_usages ps (PassGraph.new sw) pg h]
  have hnew : (PassGraph.new sw).last_usages = (fun _ => none) := rfl
  rw [hnew, processRefs_eq_specLastUsage]

def c6DemoPasses : List Pass :=
  [producerPass .ShaderWrite 1 0, consumerPass "P2" .ShaderRead 4 0]

def c6DemoGraph : PassGraph :=
  ((PassGraph.new none).add_passes c6DemoPasses).toOption.getD (PassGraph.new none)

/-- Witness for `c6_last_usage_table`: producer writes `R@1` at stage 1,
consumer reads `R@1` at stage 4; the table keeps version 1 with the
producer's stage (tie broken toward the earlier reference). -/
theorem c6_last_usage_table_witness :
    c6DemoGraph.last_usages "R"
      = specLastUsage ((c6DemoPasses.map passRefs).flatten) "R" :=
  c6_last_usage_table none c6DemoPasses c6DemoGraph rfl "R"

/-! ## Source-node invariants (C5, C7) -/

/-- The graph-shape invariant maintained by every pass-graph operation:
the captured source index is 0; the first node is the synthetic source
task; every node entry carrying index 0 is that source task; no edge ends
at the source; and fresh indices are strictly positive. -/
structure SrcInv (pg : PassGraph) : Prop where
  source_eq : pg.source = 0
  head_src : ∃ t : PassNode, pg.graph.nodes.head? = some (0, GNode.Task t)
    ∧ t.identifier = "_source"
  id_zero_src : ∀ p ∈ pg.graph.nodes, p.1 = 0 →
    ∃ t : PassNode, p.2 = GNode.Task t ∧ t.identifier = "_source"
  no_incoming : ∀ e ∈ pg.graph.edges, e.dst ≠ 0
  pos_next : 0 < pg.graph.next_id

theorem lookupNode_append_left (nodes extra : List (Nat × GNode)) (i : Nat)
    (n : GNode) (h : lookupNode nodes i = some n) :
    lookupNode (nodes ++ extra) i = some n := by
  induction nodes with
  | nil => cases h
  | cons p rest ih =>
    simp only [lookupNode] at h
    simp only [List.cons_append, lookupNode]
    by_cases hp : p.1 = i
    · rw [if_pos hp] at h ⊢
      exact h
    · rw [if_neg hp] at h ⊢
      exact ih h

theorem lookupNode_replace_hit (nodes : List (Nat × GNode)) (i : Nat) (n x : GNode)
    (h : lookupNode nodes i = some x) :
    lookupNode (replaceNodeList i n nodes) i = some n := by
  induction nodes with
  | nil => cases h
  | cons p rest ih =>
    simp only [lookupNode] at h
    simp only [replaceNodeList]
    by_cases hp : p.1 = i
    · rw [if_pos hp]
      simp only [lookupNode]
      rw [if_pos hp]
    · rw [if_neg hp]
      simp only [lookupNode]
      rw [if_neg hp]
      rw [if_neg hp] at h
      exact ih h

theorem replaceNodeList_mem (i : Nat) (n : GNode) (nodes : List (Nat × GNode)) :
    ∀ q ∈ replaceNodeList i n nodes, (q.1 = i ∧ q.2 = n) ∨ q ∈ nodes := by
  induction nodes with
  | nil => intro q hq; cases hq
  | cons p rest ih =>
    intro q hq
    simp only [replaceNodeList] at hq
    by_cases hp : p.1 = i
    · rw [if_pos hp] at hq
      rcases List.mem_cons.mp hq with h | h
      · exact Or.inl (by rw [h]; exact ⟨hp, rfl⟩)
      · rcases ih q h with h' | h'
        · exact Or.inl h'
        · exact Or.inr (List.mem_cons_of_mem p h')
    · rw [if_neg hp] at hq
      rcases List.mem_cons.mp hq with h | h
      · exact Or.inr (h ▸ List.mem_cons_self p rest)
      · rcases ih q h with h' | h'
        · exact Or.inl h'
        · exact Or.inr (List.mem_cons_of_mem p h')

theorem replaceNodeList_head (nodes : List (Nat × GNode)) (i : Nat) (n : GNode)
    (p : Nat × GNode) (h : nodes.head? = some p) (hp : p.1 = i) :
    (replaceNodeList i n nodes).head? = some (p.1, n) := by
  cases nodes with
  | nil => cases h
  | cons q rest =>
    cases h
    simp only [replaceNodeList]
    rw [if_pos hp]
    rfl

theorem replaceNodeList_head_other (nodes : List (Nat × GNode)) (i : Nat) (n : GNode)
    (p : Nat × GNode) (h : nodes.head? = some p) (hp : ¬ p.1 = i) :
    (replaceNodeList i n nodes).head? = some p := by
  cases nodes with
  | nil => cases h
  | cons q rest =>
    cases h
    simp only [replaceNodeList]
    rw [if_neg hp]
    rfl

theorem head?_append_left {α : Type} (l1 l2 : List α) (x : α)
    (h : l1.head? = some x) : (l1 ++ l2).head? = some x := by
  cases l1 with
  | nil => cases h
  | cons a rest => cases h; rfl

theorem lookupNode_of_head (nodes : List (Nat × GNode)) (i : Nat) (n : GNode)
    (h : nodes.head? = some (i, n)) : lookupNode nodes i = some n := by
  cases nodes with
  | nil => cases h
  | cons p rest =>
    cases h
    simp [lookupNode]

theorem addTaskEdges_shape (id : Nat) : ∀ (inputs : List PassResource) (g g' : TGraph),
    addTaskEdges id g inputs = .ok g' →
    g'.nodes = g.nodes ∧ g'.next_id = g.next_id ∧
    (∀ e ∈ g'.edges, e ∈ g.edges ∨ e.dst = id) := by
  intro inputs
  induction inputs with
  | nil =>
    intro g g' h
    cases h
    exact ⟨rfl, rfl, fun e he => Or.inl he⟩
  | cons input rest ih =>
    intro g g' h
    unfold addTaskEdges at h
    split at h
    · rcases ih g g' h with ⟨h1, h2, h3⟩
      exact ⟨h1, h2, h3⟩
    · split at h
      · cases h
      · rcases ih _ g' h with ⟨h1, h2, h3⟩
        refine ⟨h1, h2, fun e he => ?_⟩
        rcases h3 e he with hmem | hdst
        · rcases List.mem_append.mp hmem with hm | hm
          · exact Or.inl hm
          · rcases List.mem_singleton.mp hm with rfl
            exact Or.inr rfl
        · exact Or.inr hdst

theorem add_task_shape (g : TGraph) (t : PassNode) (g' : TGraph)
    (h : g.add_task t = .ok g') :
    g'.nodes = g.nodes ++ [(g.next_id, GNode.Task t)] ∧
    g'.next_id = g.next_id + 1 ∧
    (∀ e ∈ g'.edges, e ∈ g.edges ∨ e.dst = g.next_id) := by
  unfold TGraph.add_task at h
  rcases addTaskEdges_shape g.next_id t.inputs _ g' h with ⟨h1, h2, h3⟩
  exact ⟨h1, h2, h3⟩

theorem add_pass_srcinv (pg : PassGraph) (p : Pass) (pg1 : PassGraph)
    (hinv : SrcInv pg) (h : pg.add_pass p = .ok pg1) : SrcInv pg1 := by
  obtain ⟨t0, hhead, hident⟩ := hinv.head_src
  have hlook : pg.graph.node_weight pg.source = some (GNode.Task t0) := by
    rw [hinv.source_eq]
    exact lookupNode_of_head _ _ _ hhead
  unfold PassGraph.add_pass at h
  rw [hlook] at h
  dsimp only at h
  split at h
  · cases h
  · case _ g2 heq =>
    cases h
    rcases add_task_shape _ _ _ heq with ⟨h1, h2, h3⟩
    have hsrc0 : pg.source = 0 := hinv.source_eq
    refine ⟨hsrc0, ?_, ?_, ?_, ?_⟩
    · refine ⟨⟨t0.identifier, t0.color, t0.inputs,
        t0.outputs ++ sourceOutputsFor p.inputs, t0.is_renderpass⟩, ?_, hident⟩
      dsimp only
      rw [h1]
      apply head?_append_left
      simp only [TGraph.replace_node]
      rw [hsrc0]
      exact replaceNodeList_head _ _ _ _ hhead rfl
    · intro q hq hq0
      dsimp only at hq
      rw [h1] at hq
      rcases List.mem_append.mp hq with hm | hm
      · rw [hsrc0] at hm
        rcases replaceNodeList_mem _ _ _ q hm with ⟨_, hqn⟩ | hmem
        · exact ⟨_, hqn, hident⟩
        · exact hinv.id_zero_src q hmem hq0
      · rcases List.mem_singleton.mp hm with rfl
        exact absurd hq0 (Nat.pos_iff_ne_zero.mp hinv.pos_next)
    · intro e he
      dsimp only at he
      rcases h3 e he with hm | hd
      · exact hinv.no_incoming e hm
      · rw [hd]
        exact Nat.pos_iff_ne_zero.mp hinv.pos_next
    · dsimp only
      rw [h2]
      exact Nat.succ_pos _

theorem firstOutEdge_mem : ∀ (es : List GEdge) (i : Nat) (e : GEdge),
    firstOutEdge es i = some e → e ∈ es := by
  intro es
  induction es with
  | nil => intro i e h; cases h
  | cons x rest ih =>
    intro i e h
    simp only [firstOutEdge] at h
    by_cases hx : x.src = i
    · rw [if_pos hx] at h
      cases h
      exact List.mem_cons_self x rest
    · rw [if_neg hx] at h
      exact List.mem_cons_of_mem x (ih i e h)

theorem barrierNodes_mem : ∀ (nodes : List (Nat × GNode)) (i : Nat) (b : PassResourceBarrier),
    (i, b) ∈ barrierNodes nodes → (i, GNode.Barrier b) ∈ nodes := by
  intro nodes
  induction nodes with
  | nil => intro i b h; cases h
  | cons p rest ih =>
    intro i b h
    match p, h with
    | (j, GNode.Task t), h =>
      simp only [barrierNodes] at h
      exact List.mem_cons_of_mem _ (ih i b h)
    | (j, GNode.Barrier b0), h =>
      simp only [barrierNodes] at h
      rcases List.mem_cons.mp h with heq | hmem
      · cases heq
        exact List.mem_cons_self _ _
      · exact List.mem_cons_of_mem _ (ih i b hmem)

theorem eraseEdge_subset : ∀ (l : List GEdge) (e x : GEdge), x ∈ eraseEdge l e → x ∈ l := by
  intro l
  induction l with
  | nil => intro e x h; cases h
  | cons y rest ih =>
    intro e x h
    simp only [eraseEdge] at h
    by_cases hy : y = e
    · rw [if_pos hy] at h
      exact List.mem_cons_of_mem y h
    · rw [if_neg hy] at h
      rcases List.mem_cons.mp h with rfl | hmem
      · exact List.mem_cons_self x rest
      · exact List.mem_cons_of_mem y (ih e x hmem)

theorem updateEdgeList_mem (s d : Nat) (w : Uid) : ∀ (l : List GEdge) (x : GEdge),
    x ∈ updateEdgeList s d w l → x = ⟨s, d, w⟩ ∨ x ∈ l := by
  intro l
  induction l with
  | nil =>
    intro x h
    rcases List.mem_singleton.mp h with rfl
    exact Or.inl rfl
  | cons y rest ih =>
    intro x h
    simp only [updateEdgeList] at h
    by_cases hy : y.src = s ∧ y.dst = d
    · rw [if_pos hy] at h
      rcases List.mem_cons.mp h with rfl | hmem
      · exact Or.inl rfl
      · exact Or.inr (List.mem_cons_of_mem y hmem)
    · rw [if_neg hy] at h
      rcases List.mem_cons.mp h with rfl | hmem
      · exact Or.inr (List.mem_cons_self x rest)
      · rcases ih x hmem with h' | h'
        · exact Or.inl h'
        · exact Or.inr (List.mem_cons_of_mem y h')

theorem applyEdgeAdds_mem : ∀ (adds : List (Nat × Nat × Uid)) (es : List GEdge) (x : GEdge),
    x ∈ applyEdgeAdds adds es → x ∈ es ∨ ∃ ta ∈ adds, x.dst = ta.2.1 := by
  intro adds
  induction adds with
  | nil => intro es x h; exact Or.inl h
  | cons ta rest ih =>
    intro es x h
    obtain ⟨s, d, w⟩ := ta
    simp only [applyEdgeAdds] at h
    rcases ih _ x h with hm | ⟨ta', hta', hdst⟩
    · rcases updateEdgeList_mem s d w es x hm with rfl | hm'
      · exact Or.inr ⟨(s, d, w), List.mem_cons_self _ _, rfl⟩
      · exact Or.inl hm'
    · exact Or.inr ⟨ta', List.mem_cons_of_mem _ hta', hdst⟩

theorem retainNodes_mem (tr : List Nat) (nodes : List (Nat × GNode)) (q : Nat × GNode)
    (h : q ∈ retainNodes tr nodes) : q ∈ nodes :=
  List.mem_of_mem_filter h

theorem retainEdges_mem (tr : List Nat) (es : List GEdge) (e : GEdge)
    (h : e ∈ retainEdges tr es) : e ∈ es :=
  List.mem_of_mem_filter h

theorem retainNodes_head (tr : List Nat) (nodes : List (Nat × GNode)) (p : Nat × GNode)
    (h : nodes.head? = some p) (hk : ¬ p.1 ∈ tr) :
    (retainNodes tr nodes).head? = some p := by
  cases nodes with
  | nil => cases h
  | cons q rest =>
    cases h
    simp only [retainNodes, List.filter]
    rw [decide_eq_true (by exact hk)]
    rfl

theorem retainNodes_lookup (tr : List Nat) : ∀ (nodes : List (Nat × GNode)) (i : Nat)
    (n : GNode), lookupNode nodes i = some n → ¬ i ∈ tr →
    lookupNode (retainNodes tr nodes) i = some n := by
  intro nodes
  induction nodes with
  | nil => intro i n h _; cases h
  | cons p rest ih =>
    intro i n h hk
    simp only [lookupNode] at h
    simp only [retainNodes, List.filter]
    by_cases hp : p.1 = i
    · rw [if_pos hp] at h
      rw [decide_eq_true (by rw [hp]; exact hk)]
      simp only [lookupNode]
      rw [if_pos hp]
      exact h
    · rw [if_neg hp] at h
      cases hmem : decide (¬ p.1 ∈ tr) with
      | true =>
        simp only [lookupNode]
        rw [if_neg hp]
        exact ih i n h hk
      | false =>
        exact ih i n h hk

theorem applyFlags_mem (flags : Nat → Option (PipelineStage × AccessFlags)) :
    ∀ (nodes nodes' : List (Nat × GNode)), applyFlags flags nodes = .ok nodes' →
    ∀ q ∈ nodes', ∃ p ∈ nodes, p.1 = q.1 ∧
      (q.2 = p.2 ∨ ∃ b b', p.2 = GNode.Barrier b ∧ q.2 = GNode.Barrier b') := by
  intro nodes
  induction nodes with
  | nil =>
    intro nodes' h q hq
    cases h
    cases hq
  | cons p rest ih =>
    intro nodes' h q hq
    match p, h with
    | (i, GNode.Task t), h =>
      simp only [applyFlags] at h
      split at h
      · cases h
      · case _ l hl =>
        cases h
        rcases List.mem_cons.mp hq with rfl | hmem
        · exact ⟨(i, GNode.Task t), List.mem_cons_self _ _, rfl, Or.inl rfl⟩
        · rcases ih l hl q hmem with ⟨p', hp', hfst, hrel⟩
          exact ⟨p', List.mem_cons_of_mem _ hp', hfst, hrel⟩
    | (i, GNode.Barrier b), h =>
      simp only [applyFlags] at h
      split at h
      · cases h
      · case _ stage access hsa =>
        split at h
        · cases h
        · case _ l hl =>
          cases h
          rcases List.mem_cons.mp hq with rfl | hmem
          · exact ⟨(i, GNode.Barrier b), List.mem_cons_self _ _, rfl,
              Or.inr ⟨b, _, rfl, rfl⟩⟩
          · rcases ih l hl q hmem with ⟨p', hp', hfst, hrel⟩
            exact ⟨p', List.mem_cons_of_mem _ hp', hfst, hrel⟩

theorem applyFlags_head (flags : Nat → Option (PipelineStage × AccessFlags))
    (nodes nodes' : List (Nat × GNode)) (i : Nat) (t : PassNode)
    (h : applyFlags flags nodes = .ok nodes')
    (hh : nodes.head? = some (i, GNode.Task t)) :
    nodes'.head? = some (i, GNode.Task t) := by
  cases nodes with
  | nil => cases hh
  | cons p rest =>
    cases hh
    simp only [applyFlags] at h
    split at h
    · cases h
    · case _ l hl =>
      cases h
      rfl

theorem applyFlags_lookup_task (flags : Nat → Option (PipelineStage × AccessFlags)) :
    ∀ (nodes nodes' : List (Nat × GNode)) (i : Nat) (t : PassNode),
    applyFlags flags nodes = .ok nodes' →
    lookupNode nodes i = some (GNode.Task t) →
    lookupNode nodes' i = some (GNode.Task t) := by
  intro nodes
  induction nodes with
  | nil =>
    intro nodes' i t h hl
    cases hl
  | cons p rest ih =>
    intro nodes' i t h hl
    simp only [lookupNode] at hl
    match p, h, hl with
    | (j, GNode.Task t0), h, hl =>
      simp only [applyFlags] at h
      split at h
      · cases h
      · case _ l hrec =>
        cases h
        simp only [lookupNode]
        by_cases hj : j = i
        · rw [if_pos hj] at hl ⊢
          exact hl
        · rw [if_neg hj] at hl ⊢
          exact ih l i t hrec hl
    | (j, GNode.Barrier b), h, hl =>
      simp only [applyFlags] at h
      split at h
      · cases h
      · case _ stage access hsa =>
        split at h
        · cases h
        · case _ l hrec =>
          cases h
          simp only [lookupNode]
          by_cases hj : j = i
          · rw [if_pos hj] at hl
            cases hl
          · rw [if_neg hj] at hl ⊢
            exact ih l i t hrec hl

theorem splitEdge_shape (g : TGraph) (e : GEdge)
    (hin : ∀ x ∈ g.edges, x.dst ≠ 0) (hpos : 0 < g.next_id) (hedst : e.dst ≠ 0) :
    (∃ extra, (splitEdge g e).nodes = g.nodes ++ extra ∧
      ∀ p ∈ extra, p.1 ≠ 0 ∧ ∃ b, p.2 = GNode.Barrier b) ∧
    (∀ x ∈ (splitEdge g e).edges, x.dst ≠ 0) ∧
    0 < (splitEdge g e).next_id := by
  unfold splitEdge
  split
  · case _ a b hwa hwb =>
    split
    · case _ pres cres hfa hfb =>
      split
      · exact ⟨⟨[], by simp, by simp⟩, hin, hpos⟩
      · refine ⟨⟨[(g.next_id, GNode.Barrier (PassResourceBarrier.fresh pres))],
          rfl, ?_⟩, ?_, ?_⟩
        · intro p hp
          rcases List.mem_singleton.mp hp with rfl
          exact ⟨Nat.pos_iff_ne_zero.mp hpos, _, rfl⟩
        · intro x hx
          rcases List.mem_append.mp hx with hm | hm
          · exact hin x (eraseEdge_subset _ _ _ hm)
          · rcases List.mem_cons.mp hm with rfl | hm'
            · exact Nat.pos_iff_ne_zero.mp hpos
            · rcases List.mem_singleton.mp hm' with rfl
              exact hedst
        · exact Nat.succ_pos _
    · exact ⟨⟨[], by simp, by simp⟩, hin, hpos⟩
  · exact ⟨⟨[], by simp, by simp⟩, hin, hpos⟩

theorem splitEdges_shape : ∀ (es : List GEdge) (g : TGraph),
    (∀ x ∈ g.edges, x.dst ≠ 0) → 0 < g.next_id → (∀ x ∈ es, x.dst ≠ 0) →
    (∃ extra, (splitEdges g es).nodes = g.nodes ++ extra ∧
      ∀ p ∈ extra, p.1 ≠ 0 ∧ ∃ b, p.2 = GNode.Barrier b) ∧
    (∀ x ∈ (splitEdges g es).edges, x.dst ≠ 0) ∧
    0 < (splitEdges g es).next_id := by
  intro es
  induction es with
  | nil =>
    intro g hin hpos _
    exact ⟨⟨[], by simp [splitEdges], by simp⟩, hin, hpos⟩
  | cons e rest ih =>
    intro g hin hpos hes
    have hedst : e.dst ≠ 0 := hes e (List.mem_cons_self e rest)
    rcases splitEdge_shape g e hin hpos hedst with ⟨⟨extra1, hn1, hb1⟩, hin1, hpos1⟩
    rcases ih (splitEdge g e) hin1 hpos1
        (fun x hx => hes x (List.mem_cons_of_mem e hx)) with
      ⟨⟨extra2, hn2, hb2⟩, hin2, hpos2⟩
    refine ⟨⟨extra1 ++ extra2, ?_, ?_⟩, hin2, hpos2⟩
    · show (splitEdges (splitEdge g e) rest).nodes = _
      rw [hn2, hn1, List.append_assoc]
    · intro p hp
      rcases List.mem_append.mp hp with hm | hm
      · exact hb1 p hm
      · exact hb2 p hm

theorem mergeInner_st (g : TGraph) (node : Nat) (bar : PassResourceBarrier)
    (du : ResourceUsage) :
    ∀ (bs : List (Nat × PassResourceBarrier)) (st st' : MergeSt),
    mergeInner g node bar du st bs = .ok st' →
    (∀ n ∈ st'.to_remove, n ∈ st.to_remove ∨ ∃ b, (n, b) ∈ bs) ∧
    (∀ ta ∈ st'.edges_to_add, ta ∈ st.edges_to_add ∨ ∃ e ∈ g.edges, ta.2.1 = e.dst) := by
  intro bs
  induction bs with
  | nil =>
    intro st st' h
    cases h
    exact ⟨fun n hn => Or.inl hn, fun ta hta => Or.inl hta⟩
  | cons ob rest ih =>
    intro st st' h
    obtain ⟨other_node, other_bar⟩ := ob
    simp only [mergeInner] at h
    split at h
    · rcases ih st st' h with ⟨h1, h2⟩
      refine ⟨fun n hn => ?_, fun ta hta => ?_⟩
      · rcases h1 n hn with hm | ⟨b, hb⟩
        · exact Or.inl hm
        · exact Or.inr ⟨b, List.mem_cons_of_mem _ hb⟩
      · exact h2 ta hta
    · split at h
      · rcases ih st st' h with ⟨h1, h2⟩
        refine ⟨fun n hn => ?_, fun ta hta => ?_⟩
        · rcases h1 n hn with hm | ⟨b, hb⟩
          · exact Or.inl hm
          · exact Or.inr ⟨b, List.mem_cons_of_mem _ hb⟩
        · exact h2 ta hta
      · split at h
        · cases h
        · case _ other_resource hdst =>
          split at h
          · split at h
            · cases h
            · split at h
              · cases h
              · case _ te hte =>
                split at h
                · cases h
                · case _ stage access hflags =>
                  rcases ih _ st' h with ⟨h1, h2⟩
                  refine ⟨fun n hn => ?_, fun ta hta => ?_⟩
                  · rcases h1 n hn with hm | ⟨b, hb⟩
                    · dsimp only at hm
                      rcases List.mem_append.mp hm with hm' | hm'
                      · exact Or.inl hm'
                      · rcases List.mem_singleton.mp hm' with rfl
                        exact Or.inr ⟨other_bar, List.mem_cons_self _ _⟩
                    · exact Or.inr ⟨b, List.mem_cons_of_mem _ hb⟩
                  · rcases h2 ta hta with hm | hm
                    · dsimp only at hm
                      rcases List.mem_append.mp hm with hm' | hm'
                      · exact Or.inl hm'
                      · rcases List.mem_singleton.mp hm' with rfl
                        exact Or.inr ⟨te, firstOutEdge_mem _ _ _ hte, rfl⟩
                    · exact Or.inr hm
          · rcases ih st st' h with ⟨h1, h2⟩
            refine ⟨fun n hn => ?_, fun ta hta => ?_⟩
            · rcases h1 n hn with hm | ⟨b, hb⟩
              · exact Or.inl hm
              · exact Or.inr ⟨b, List.mem_cons_of_mem _ hb⟩
            · exact h2 ta hta

theorem mergeOuter_st (g : TGraph) (bs : List (Nat × PassResourceBarrier)) :
    ∀ (rest : List (Nat × PassResourceBarrier)) (st st' : MergeSt),
    mergeOuter g bs st rest = .ok st' →
    (∀ n ∈ st'.to_remove, n ∈ st.to_remove ∨ ∃ b, (n, b) ∈ bs) ∧
    (∀ ta ∈ st'.edges_to_add, ta ∈ st.edges_to_add ∨ ∃ e ∈ g.edges, ta.2.1 = e.dst) := by
  intro rest
  induction rest with
  | nil =>
    intro st st' h
    cases h
    exact ⟨fun n hn => Or.inl hn, fun ta hta => Or.inl hta⟩
  | cons nb rest ih =>
    intro st st' h
    obtain ⟨node, bar⟩ := nb
    simp only [mergeOuter] at h
    split at h
    · cases h
    · case _ dst_resource hdst =>
      split at h
      · cases h
      · case _ st2 hst2 =>
        rcases mergeInner_st g node bar dst_resource.usage bs _ st2 hst2 with ⟨hi1, hi2⟩
        rcases ih st2 st' h with ⟨h1, h2⟩
        refine ⟨fun n hn => ?_, fun ta hta => ?_⟩
        · rcases h1 n hn with hm | hb
          · rcases hi1 n hm with hm' | hb'
            · exact Or.inl hm'
            · exact Or.inr hb'
          · exact Or.inr hb
        · rcases h2 ta hta with hm | hb
          · rcases hi2 ta hm with hm' | hb'
            · exact Or.inl hm'
            · exact Or.inr hb'
          · exact Or.inr hb

theorem merge_shape (g g' : TGraph) (h : g.merge_identical_barriers = .ok g')
    (hzero : ∀ p ∈ g.nodes, p.1 = 0 →
      ∃ t : PassNode, p.2 = GNode.Task t ∧ t.identifier = "_source")
    (hin : ∀ e ∈ g.edges, e.dst ≠ 0) :
    (∀ p ∈ g'.nodes, p.1 = 0 →
      ∃ t : PassNode, p.2 = GNode.Task t ∧ t.identifier = "_source") ∧
    (∀ e ∈ g'.edges, e.dst ≠ 0) ∧
    g'.next_id = g.next_id ∧
    (∀ t : PassNode, g.nodes.head? = some (0, GNode.Task t) →
      g'.nodes.head? = some (0, GNode.Task t)) ∧
    (∀ t : PassNode, lookupNode g.nodes 0 = some (GNode.Task t) →
      lookupNode g'.nodes 0 = some (GNode.Task t)) := by
  unfold TGraph.merge_identical_barriers at h
  split at h
  · cases h
  · case _ st hst =>
    split at h
    · cases h
    · case _ nodes1 hflags =>
      cases h
      rcases mergeOuter_st g (barrierNodes g.nodes) (barrierNodes g.nodes)
          ⟨[], [], fun _ => none⟩ st hst with ⟨htr, hadd⟩
      have h0 : ¬ (0 : Nat) ∈ st.to_remove := by
        intro h0
        rcases htr 0 h0 with hm | ⟨b, hb⟩
        · cases hm
        · rcases hzero _ (barrierNodes_mem _ _ _ hb) rfl with ⟨t, ht, _⟩
          cases ht
      refine ⟨?_, ?_, rfl, ?_, ?_⟩
      · intro q hq hq0
        rcases applyFlags_mem _ _ _ hflags q (retainNodes_mem _ _ _ hq) with
          ⟨p, hp, hfst, hrel⟩
        rcases hzero p hp (hfst.trans hq0) with ⟨t, ht, hident⟩
        rcases hrel with hqp | ⟨b, b', hpb, _⟩
        · exact ⟨t, hqp.trans ht, hident⟩
        · rw [ht] at hpb
          cases hpb
      · intro e he
        rcases applyEdgeAdds_mem st.edges_to_add g.edges e
            (retainEdges_mem _ _ _ he) with hm | ⟨ta, hta, hdst⟩
        · exact hin e hm
        · rcases hadd ta hta with hm' | ⟨ge, hge, hd⟩
          · cases hm'
          · rw [hdst, hd]
            exact hin ge hge
      · intro t hh
        exact retainNodes_head _ _ _ (applyFlags_head _ _ _ _ _ hflags hh) h0
      · intro t hl
        exact retainNodes_lookup _ _ _ _ (applyFlags_lookup_task _ _ _ _ _ hflags hl) h0

theorem new_srcinv (sw : Option VirtualResource) : SrcInv (PassGraph.new sw) := by
  refine ⟨rfl, ⟨sourcePassNode, rfl, rfl⟩, ?_, ?_, ?_⟩
  · intro p hp hp0
    have hnodes : (PassGraph.new sw).graph.nodes = [(0, GNode.Task sourcePassNode)] := rfl
    rw [hnodes] at hp
    rcases List.mem_singleton.mp hp with rfl
    exact ⟨sourcePassNode, rfl, rfl⟩
  · intro e he
    have hedges : (PassGraph.new sw).graph.edges = [] := rfl
    rw [hedges] at he
    cases he
  · show 0 < (PassGraph.new sw).graph.next_id
    exact Nat.one_pos

theorem add_passes_srcinv : ∀ (ps : List Pass) (pg pg' : PassGraph),
    SrcInv pg → pg.add_passes ps = .ok pg' → SrcInv pg' := by
  intro ps
  induction ps with
  | nil =>
    intro pg pg' hinv h
    cases h
    exact hinv
  | cons p rest ih =>
    intro pg pg' hinv h
    unfold PassGraph.add_passes at h
    split at h
    · cases h
    · case _ pg1 heq =>
      exact ih pg1 pg' (add_pass_srcinv pg p pg1 hinv heq) h

theorem stampSourceOutputs_spec (sw : VirtualResource) (lu : UsageTable) :
    ∀ (outs outs' : List PassResource), stampSourceOutputs sw lu outs = .ok outs' →
    ∀ o ∈ outs',
      (o.resource.is_associated_with sw = true → o.stage = COLOR_ATTACHMENT_OUTPUT) ∧
      (o.resource.is_associated_with sw = false →
        ∃ v s, lu o.resource.name = some (v, s) ∧ o.stage = s) := by
  intro outs
  induction outs with
  | nil =>
    intro outs' h o ho
    cases h
    cases ho
  | cons x rest ih =>
    intro outs' h o ho
    simp only [stampSourceOutputs] at h
    split at h
    · cases h
    · case _ st hst =>
      split at h
      · cases h
      · case _ l hl =>
        cases h
        rcases List.mem_cons.mp ho with rfl | hmem
        · by_cases hb : x.resource.is_associated_with sw = true
          · rw [if_pos hb] at hst
            cases hst
            constructor
            · intro _
              rfl
            · intro hfalse
              rw [hb] at hfalse
              cases hfalse
          · rw [if_neg hb] at hst
            rcases hlu : lu x.resource.name with _ | vs
            · rw [hlu] at hst
              cases hst
            · obtain ⟨v, s⟩ := vs
              rw [hlu] at hst
              cases hst
              constructor
              · intro htrue
                exact absurd htrue hb
              · intro _
                exact ⟨v, _, rfl, rfl⟩
        · exact ih l hl o hmem

theorem set_source_stages_spec (pg pg1 : PassGraph) (hinv : SrcInv pg)
    (h : pg.set_source_stages = .ok pg1) :
    SrcInv pg1 ∧ pg1.swapchain = pg.swapchain ∧ pg1.last_usages = pg.last_usages ∧
    pg1.source = 0 ∧
    ∃ t0 outs, pg.graph.node_weight 0 = some (GNode.Task t0) ∧
      stampSourceOutputs (pg.swapchain.getD (VirtualResource.image "__none__internal__"))
        pg.last_usages t0.outputs = .ok outs ∧
      lookupNode pg1.graph.nodes 0 = some (GNode.Task
        ⟨t0.identifier, t0.color, t0.inputs, outs, t0.is_renderpass⟩) := by
  obtain ⟨t0, hhead, hident⟩ := hinv.head_src
  have hlook : pg.graph.node_weight pg.source = some (GNode.Task t0) := by
    rw [hinv.source_eq]
    exact lookupNode_of_head _ _ _ hhead
  unfold PassGraph.set_source_stages at h
  rw [hlook] at h
  dsimp only at h
  split at h
  · cases h
  · case _ outs houts =>
    cases h
    have hsrc0 : pg.source = 0 := hinv.source_eq
    have hlook0 : lookupNode pg.graph.nodes 0 = some (GNode.Task t0) := by
      rw [← hsrc0]
      exact hlook
    refine ⟨⟨hsrc0, ?_, ?_, ?_, ?_⟩, rfl, rfl, hsrc0, t0, outs, by rw [hsrc0] at hlook; exact hlook, houts, ?_⟩
    · refine ⟨⟨t0.identifier, t0.color, t0.inputs, outs, t0.is_renderpass⟩, ?_, hident⟩
      dsimp only [TGraph.replace_node]
      rw [hsrc0]
      exact replaceNodeList_head _ _ _ _ hhead rfl
    · intro q hq hq0
      dsimp only [TGraph.replace_node] at hq
      rw [hsrc0] at hq
      rcases replaceNodeList_mem _ _ _ q hq with ⟨_, hqn⟩ | hmem
      · exact ⟨_, hqn, hident⟩
      · exact hinv.id_zero_src q hmem hq0
    · intro e he
      exact hinv.no_incoming e he
    · exact hinv.pos_next
    · dsimp only [TGraph.replace_node]
      rw [hsrc0]
      exact lookupNode_replace_hit _ _ _ _ hlook0

theorem add_passes_swapchain : ∀ (ps : List Pass) (pg pg' : PassGraph),
    pg.add_passes ps = .ok pg' → pg'.swapchain = pg.swapchain := by
  intro ps
  induction ps with
  | nil =>
    intro pg pg' h
    cases h
    rfl
  | cons p rest ih =>
    intro pg pg' h
    unfold PassGraph.add_passes at h
    split at h
    · cases h
    · case _ pg1 heq =>
      rw [ih pg1 pg' h]
      unfold PassGraph.add_pass at heq
      split at heq
      · dsimp only at heq
        split at heq
        · cases heq
        · cases heq
          rfl
      · cases heq

theorem build_shape (pg bg : PassGraph) (hinv : SrcInv pg) (h : pg.build = .ok bg) :
    SrcInv bg ∧ bg.source = 0 ∧
    ∃ t0 outs, pg.graph.node_weight 0 = some (GNode.Task t0) ∧
      stampSourceOutputs (pg.swapchain.getD (VirtualResource.image "__none__internal__"))
        pg.last_usages t0.outputs = .ok outs ∧
      lookupNode bg.graph.nodes 0 = some (GNode.Task
        ⟨t0.identifier, t0.color, t0.inputs, outs, t0.is_renderpass⟩) := by
  unfold PassGraph.build at h
  split at h
  · cases h
  · case _ pg1 hss =>
    split at h
    · cases h
    · case _ g2 hmg =>
      cases h
      rcases set_source_stages_spec pg pg1 hinv hss with
        ⟨hinv1, hswap, hlu, hsrc1, t0, outs, hw0, houts, hlook1⟩
      rcases splitEdges_shape pg1.graph.edges pg1.graph hinv1.no_incoming
          hinv1.pos_next hinv1.no_incoming with
        ⟨⟨extra, hnodes, hbarrier⟩, hin_c, hpos_c⟩
      have hzero_c : ∀ p ∈ pg1.graph.create_barrier_nodes.nodes, p.1 = 0 →
          ∃ t : PassNode, p.2 = GNode.Task t ∧ t.identifier = "_source" := by
        intro p hp hp0
        rw [show pg1.graph.create_barrier_nodes = splitEdges pg1.graph pg1.graph.edges
          from rfl, hnodes] at hp
        rcases List.mem_append.mp hp with hm | hm
        · exact hinv1.id_zero_src p hm hp0
        · exact absurd hp0 (hbarrier p hm).1
      rcases merge_shape _ g2 hmg hzero_c hin_c with
        ⟨hzero2, hin2, hnext2, hheadp, hlookp⟩
      obtain ⟨t1, hhead1, hident1⟩ := hinv1.head_src
      have hhead_c : (pg1.graph.create_barrier_nodes).nodes.head?
          = some (0, GNode.Task t1) := by
        rw [show pg1.graph.create_barrier_nodes = splitEdges pg1.graph pg1.graph.edges
          from rfl, hnodes]
        exact head?_append_left _ _ _ hhead1
      have hlook_c : lookupNode (pg1.graph.create_barrier_nodes).nodes 0
          = some (GNode.Task ⟨t0.identifier, t0.color, t0.inputs, outs, t0.is_renderpass⟩) := by
        rw [show pg1.graph.create_barrier_nodes = splitEdges pg1.graph pg1.graph.edges
          from rfl, hnodes]
        exact lookupNode_append_left _ _ _ _ hlook1
      refine ⟨⟨hsrc1, ⟨t1, hheadp t1 hhead_c, hident1⟩, hzero2, hin2, ?_⟩,
        hsrc1, t0, outs, hw0, ?_, hlookp _ hlook_c⟩
      · dsimp only
        rw [hnext2]
        exact hpos_c
      · exact houts

/--
**C7.**  For every pass graph reachable through the public API, the source
node index captured at creation (0) stays valid and refers to the
synthetic `_source` task node: after any sequence of successful `add_pass`
calls, and after `build()` (whose merge step removes only barrier nodes),
the first node of the graph is still the unique node carrying index 0,
it is the `_source` task, and no edge points into it.
-/
theorem c7_source_node_stable (sw : Option VirtualResource) (ps : List Pass)
    (pg : PassGraph) (h : (PassGraph.new sw).add_passes ps = .ok pg) :
    (pg.source = 0 ∧
      (∃ t : PassNode, pg.graph.nodes.head? = some (0, GNode.Task t)
        ∧ t.identifier = "_source") ∧
      (∀ p ∈ pg.graph.nodes, p.1 = 0 →
        ∃ t : PassNode, p.2 = GNode.Task t ∧ t.identifier = "_source") ∧
      (∀ e ∈ pg.graph.edges, e.dst ≠ 0)) ∧
    (∀ bg, pg.build = .ok bg →
      bg.source = 0 ∧
      (∃ t : PassNode, bg.graph.nodes.head? = some (0, GNode.Task t)
        ∧ t.identifier = "_source") ∧
      (∀ p ∈ bg.graph.nodes, p.1 = 0 →
        ∃ t : PassNode, p.2 = GNode.Task t ∧ t.identifier = "_source") ∧
      (∀ e ∈ bg.graph.edges, e.dst ≠ 0)) := by
  have hinv := add_passes_srcinv ps (PassGraph.new sw) pg (new_srcinv sw) h
  refine ⟨⟨hinv.source_eq, hinv.head_src, hinv.id_zero_src, hinv.no_incoming⟩, ?_⟩
  intro bg hb
  rcases build_shape pg bg hinv hb with ⟨hinvb, _, _⟩
  exact ⟨hinvb.source_eq, hinvb.head_src, hinvb.id_zero_src, hinvb.no_incoming⟩

def c7DemoGraph : PassGraph :=
  ((PassGraph.new none).add_passes [c3PassA]).toOption.getD (PassGraph.new none)

/-- Witness for `c7_source_node_stable`: a graph holding one pass. -/
theorem c7_source_node_stable_witness :
    (c7DemoGraph.source = 0 ∧
      (∃ t : PassNode, c7DemoGraph.graph.nodes.head? = some (0, GNode.Task t)
        ∧ t.identifier = "_source") ∧
      (∀ p ∈ c7DemoGraph.graph.nodes, p.1 = 0 →
        ∃ t : PassNode, p.2 = GNode.Task t ∧ t.identifier = "_source") ∧
      (∀ e ∈ c7DemoGraph.graph.edges, e.dst ≠ 0)) ∧
    (∀ bg, c7DemoGraph.build = .ok bg →
      bg.source = 0 ∧
      (∃ t : PassNode, bg.graph.nodes.head? = some (0, GNode.Task t)
        ∧ t.identifier = "_source") ∧
      (∀ p ∈ bg.graph.nodes, p.1 = 0 →
        ∃ t : PassNode, p.2 = GNode.Task t ∧ t.identifier = "_source") ∧
      (∀ e ∈ bg.graph.edges, e.dst ≠ 0)) :=
  c7_source_node_stable none [c3PassA] c7DemoGraph rfl

/--
**C5.**  After a successful `build()` with a designated swapchain resource,
every output of the synthetic source node has its stage set as follows:
if the output's resource is associated with the swapchain resource (same
name, any version), the stage is `COLOR_ATTACHMENT_OUTPUT`; otherwise the
stage equals the stage recorded in the last-usage table for that
resource's name.
-/
theorem c5_source_stage_assignment (sw : VirtualResource) (ps : List Pass)
    (pg bg : PassGraph) (h : (PassGraph.new (some sw)).add_passes ps = .ok pg)
    (hb : pg.build = .ok bg) :
    ∀ o ∈ bg.source_outputs,
      (o.resource.name = sw.name → o.stage = COLOR_ATTACHMENT_OUTPUT) ∧
      (o.resource.name ≠ sw.name →
        ∃ v s, pg.last_usages o.resource.name = some (v, s) ∧ o.stage = s) := by
  have hinv := add_passes_srcinv ps (PassGraph.new (some sw)) pg (new_srcinv (some sw)) h
  have hswap : pg.swapchain = some sw := add_passes_swapchain ps _ pg h
  rcases build_shape pg bg hinv hb with ⟨hinvb, hbsrc, t0, outs, hw0, houts, hlookb⟩
  rw [hswap] at houts
  have houts' : stampSourceOutputs sw pg.last_usages t0.outputs = .ok outs := houts
  have hso : bg.source_outputs = outs := by
    unfold PassGraph.source_outputs
    rw [hbsrc]
    show (match lookupNode bg.graph.nodes 0 with
      | some (GNode.Task t) => t.outputs
      | _ => []) = outs
    rw [hlookb]
  rw [hso]
  intro o ho
  rcases stampSourceOutputs_spec sw pg.last_usages t0.outputs outs houts' o ho with
    ⟨hassoc, hother⟩
  constructor
  · intro hname
    exact hassoc (by simp [VirtualResource.is_associated_with, hname])
  · intro hname
    exact hother (by simp [VirtualResource.is_associated_with, hname])

def c5DemoPass : Pass :=
  ⟨"P", none, [⟨.ShaderRead, ⟨"history", 0⟩, 4, 0, none, none⟩], [], false⟩

def c5DemoAdded : PassGraph :=
  ((PassGraph.new (some ⟨"swap", 0⟩)).add_passes [c5DemoPass]).toOption.getD
    (PassGraph.new none)

def c5DemoBuilt : PassGraph :=
  c5DemoAdded.build.toOption.getD (PassGraph.new none)

/-- The source output of the witness graph: `history@0`, stamped at build
time with the last-usage stage of `history` (stage 4). -/
def c5DemoOutput : PassResource :=
  ⟨.Nothing, ⟨"history", 0⟩, 4, 0, none, none⟩

/-- Witness for `c5_source_stage_assignment`: a pass reading `history@0`
with a designated swapchain named `swap`; the source output for `history`
takes the last-usage stage of `history` (stage 4). -/
theorem c5_source_stage_assignment_witness :
    (c5DemoOutput.resource.name = VirtualResource.name ⟨"swap", 0⟩ →
      c5DemoOutput.stage = COLOR_ATTACHMENT_OUTPUT) ∧
    (c5DemoOutput.resource.name ≠ VirtualResource.name ⟨"swap", 0⟩ →
      ∃ v s, c5DemoAdded.last_usages c5DemoOutput.resource.name = some (v, s)
        ∧ c5DemoOutput.stage = s) :=
  c5_source_stage_assignment ⟨"swap", 0⟩ [c5DemoPass] c5DemoAdded c5DemoBuilt rfl rfl
    c5DemoOutput (by decide)
